import Mathlib

/-!
# Language detection cascade of go-pkg-spider (`lang.go`)

A shallow embedding of `Lang`, `LangFromHtml`, `LangFromTitle`, `LangFromUtf8Body` and
`bodyTextForLang`, with the properties of the cascade proved about it.

Conventions of the embedding:

* a Go string is the list of its code points (`Str`); the texts handled are valid UTF-8,
  so `utf8.RuneCountInString` is the length of the list;
* the parsed page (`*goquery.Document`) is seen through the two queries the code makes of it:
  the attribute of the first element of a selection, and the texts of the selected elements;
* what the code takes from outside the repository and cannot be read off `lang.go`
  (the Unicode tables behind `\p{Han}`, `\p{Hiragana}`, `\p{Katakana}`, `\pP`, `\pS`,
  `fun.RemoveSign`, `extract.WebTitle`, the lingua detector) is a parameter, `Env`;
* `float64` quotients are modelled by exact rationals rounded to the nearest float64.
-/

namespace Spider

/-! ## Strings -/

/-- Go strings, as lists of code points. -/
abbrev Str := List Char

/-- Go's `unicode.IsSpace`: the code points with the White_Space property. -/
def IsSpace (c : Char) : Bool :=
  (0x09 ≤ c.toNat && c.toNat ≤ 0x0D) || c.toNat == 0x20 || c.toNat == 0x85 || c.toNat == 0xA0
    || c.toNat == 0x1680 || (0x2000 ≤ c.toNat && c.toNat ≤ 0x200A) || c.toNat == 0x2028
    || c.toNat == 0x2029 || c.toNat == 0x202F || c.toNat == 0x205F || c.toNat == 0x3000

/-- Go's `strings.TrimSpace`: leading and trailing white space removed. -/
def TrimSpace (s : Str) : Str :=
  (s.dropWhile IsSpace).rdropWhile IsSpace

/-- Scan of `strings.ReplaceAll`: `skip` code points of a match are still to be dropped. -/
def replaceAllAux (old new : Str) : Nat → Str → Str
  | _, [] => []
  | skip + 1, _ :: t => replaceAllAux old new skip t
  | 0, c :: t =>
    if old.isPrefixOf (c :: t) then new ++ replaceAllAux old new (old.length - 1) t
    else c :: replaceAllAux old new 0 t

/-- Go's `strings.ReplaceAll s old new` for a non-empty `old`: the non-overlapping
occurrences of `old`, found from the left, are replaced by `new`. -/
def ReplaceAll (s old new : Str) : Str :=
  replaceAllAux old new 0 s

/-- Go's `strings.HasPrefix`. -/
def HasPrefix (s pre : Str) : Bool :=
  pre.isPrefixOf s

/-- Go's `strings.Count s sep` for a separator of one code point. -/
def Count (s : Str) (c : Char) : Nat :=
  s.count c

/-- Go's `strings.ToLower`, on the ASCII names it is applied to. -/
def ToLower (s : Str) : Str :=
  s.map Char.toLower

/-- The constant `fun.TAB` of go-fun. -/
def TAB : Str := "\t".toList

/-- Modelled from the spec: `fun.RemoveLines` of go-fun is not in `lang.go`; it removes the
line breaks ("collapse line breaks into nothing"), that is every CR and LF. -/
def RemoveLines (s : Str) : Str :=
  s.filter (fun c => !(c == '\n' || c == '\r'))

/-- Modelled from the spec: `fun.SubString str pos length` of go-fun is not in `lang.go`; it is
the `length` code points of `str` from position `pos` ("the first 2048 characters",
"the first 2 characters"). -/
def SubString (s : Str) (pos length : Nat) : Str :=
  (s.drop pos).take length

/-- `regexp.FindAllString(text, -1)` for a pattern that is one character class: the matches,
in order, each one code point; Go's `nil` result is the empty list. -/
def FindAllString (cls : Char → Bool) (text : Str) : List Char :=
  text.filter cls

/-- `regexp.ReplaceAllString(text, "")` for a pattern that is one character class. -/
def RemoveAll (cls : Char → Bool) (text : Str) : Str :=
  text.filter (fun c => !cls c)

/-- Map index `m[k]` of Go: the zero value `""` for a missing key. -/
def mapGet (m : List (Str × Str)) (k : Str) : Str :=
  (m.lookup k).getD []

/-- The `exist` flag of Go's `_, exist := m[k]`. -/
def mapHas (m : List (Str × Str)) (k : Str) : Bool :=
  (m.lookup k).isSome

/-! ## float64 quotients -/

/-- Round a rational to the nearest integer, ties to the even neighbour. -/
def roundHalfEven (m : ℚ) : ℤ :=
  if m - ⌊m⌋ < 1 / 2 then ⌊m⌋
  else if 1 / 2 < m - ⌊m⌋ then ⌊m⌋ + 1
  else if ⌊m⌋ % 2 = 0 then ⌊m⌋ else ⌊m⌋ + 1

/-- The float64 nearest to a non-negative rational: a significand of 53 bits, rounded to
nearest, ties to even. The exponent is not bounded: the values met here, counts up to
`BodyChunkSize`, their quotients and the constants 0.38 and 0.1, are far inside the normal
range of float64. -/
def roundFloat64 (x : ℚ) : ℚ :=
  if x ≤ 0 then 0
  else roundHalfEven (x / 2 ^ (Int.log 2 x - 52)) * 2 ^ (Int.log 2 x - 52)

/-- A float64 value, as far as quotients of counts need it. -/
inductive F64 where
  | fin (q : ℚ)
  | inf
  | nan

/-- Go's `float64(a) / float64(b)` for two counts: both conversions and the quotient are
rounded; a zero divisor gives NaN or +Inf. -/
def float64Div (a b : ℕ) : F64 :=
  if roundFloat64 b = 0 then (if roundFloat64 a = 0 then F64.nan else F64.inf)
  else F64.fin (roundFloat64 (roundFloat64 a / roundFloat64 b))

/-- Go's `x >= c` for a float64 `x` and a decimal constant `c`, converted to float64; false
on NaN. -/
def F64.ge (x : F64) (c : ℚ) : Bool :=
  match x with
  | F64.fin q => decide (roundFloat64 c ≤ q)
  | F64.inf => true
  | F64.nan => false

/-- Go's `x > c` for a float64 `x` and a decimal constant `c`, converted to float64; false
on NaN. -/
def F64.gt (x : F64) (c : ℚ) : Bool :=
  match x with
  | F64.fin q => decide (roundFloat64 c < q)
  | F64.inf => true
  | F64.nan => false

/-! ## The page, and what comes from outside `lang.go` -/

/-- The `lingua.Language` values `lang.go` names. -/
inductive Language where
  | Arabic | Russian | Hindi | Korean | French | German | Spanish | Portuguese | English
  deriving DecidableEq, Repr

/-- The method `Language.String()` of lingua: the English name of the language. -/
def Language.String : Language → Str
  | .Arabic => "Arabic".toList
  | .Russian => "Russian".toList
  | .Hindi => "Hindi".toList
  | .Korean => "Korean".toList
  | .French => "French".toList
  | .German => "German".toList
  | .Spanish => "Spanish".toList
  | .Portuguese => "Portuguese".toList
  | .English => "English".toList

/-- The parsed page, `*goquery.Document`, through the queries `lang.go` makes. -/
structure Document where
  /-- `doc.Find(selector).Attr(name)`: the attribute, when the selection has it. -/
  Attr : Str → Str → Option Str
  /-- The text of each element of `doc.Find(selector)`, in document order. -/
  Texts : Str → List Str

/-- `Selection.Size()` of `doc.Find(selector)`. -/
def Document.Size (doc : Document) (selector : Str) : Nat :=
  (doc.Texts selector).length

/-- `doc.Find(selector).Slice(0, n).Text()`: the texts of the first `n` elements, joined. -/
def Document.SliceText (doc : Document) (selector : Str) (n : Nat) : Str :=
  ((doc.Texts selector).take n).flatten

/-- `doc.Find(selector).Text()`. -/
def Document.Text (doc : Document) (selector : Str) : Str :=
  (doc.Texts selector).flatten

/-- What `lang.go` uses and does not define. -/
structure Env where
  /-- The Unicode table of `\p{Han}`. -/
  Han : Char → Bool
  /-- The Unicode table of `\p{Hiragana}`. -/
  Hiragana : Char → Bool
  /-- The Unicode table of `\p{Katakana}`. -/
  Katakana : Char → Bool
  /-- The Unicode table of `\pP`, the punctuation categories. -/
  P : Char → Bool
  /-- The Unicode table of `\pS`, the symbol categories. -/
  S : Char → Bool
  /-- The function `fun.RemoveSign` of go-fun, which strips the formatting marks of a title. -/
  RemoveSign : Str → Str
  /-- The function `extract.WebTitle`, the representative title of a page. -/
  WebTitle : Document → Nat → Str
  /-- The lingua detector built from a list of languages, applied to a text: a language when
  it is confident, nothing otherwise. -/
  DetectLanguageOf : List Language → Str → Option Language
  /-- The vertical bar is a symbol (category Sm). -/
  bar_symbol : S '|' = true

/-! ## Tables and constants of `lang.go` -/

/-- Charset to language (`lang.go`, 15-26). -/
def CharsetLangMap : List (Str × Str) := [
  ("GBK".toList, "zh".toList),
  ("Big5".toList, "zh".toList),
  ("ISO-2022-CN".toList, "zh".toList),
  ("SHIFT_JIS".toList, "ja".toList),
  ("KOI8-R".toList, "ru".toList),
  ("EUC-JP".toList, "ja".toList),
  ("EUC-KR".toList, "ko".toList),
  ("EUC-CN".toList, "zh".toList),
  ("ISO-2022-JP".toList, "ja".toList),
  ("ISO-2022-KR".toList, "ko".toList)]

/-- Language code to Chinese name (`lang.go`, 28-44). -/
def LangEnZhMap : List (Str × Str) := [
  ("zh".toList, "中文".toList),
  ("en".toList, "英语".toList),
  ("ja".toList, "日语".toList),
  ("ru".toList, "俄语".toList),
  ("ko".toList, "韩语".toList),
  ("ar".toList, "阿拉伯语".toList),
  ("hi".toList, "印地语".toList),
  ("de".toList, "德语".toList),
  ("fr".toList, "法语".toList),
  ("es".toList, "西班牙语".toList),
  ("pt".toList, "葡萄牙语".toList),
  ("it".toList, "意大利语".toList),
  ("th".toList, "泰语".toList),
  ("vi".toList, "越南语".toList),
  ("my".toList, "缅甸语".toList)]

/-- Chinese name to language code (`lang.go`, 46-62). -/
def LangZhEnMap : List (Str × Str) := [
  ("中文".toList, "zh".toList),
  ("英语".toList, "en".toList),
  ("日语".toList, "ja".toList),
  ("俄语".toList, "ru".toList),
  ("韩语".toList, "ko".toList),
  ("阿拉伯语".toList, "ar".toList),
  ("印地语".toList, "hi".toList),
  ("德语".toList, "de".toList),
  ("法语".toList, "fr".toList),
  ("西班牙语".toList, "es".toList),
  ("葡萄牙语".toList, "pt".toList),
  ("意大利语".toList, "it".toList),
  ("泰语".toList, "th".toList),
  ("越南语".toList, "vi".toList),
  ("缅甸语".toList, "my".toList)]

/-- The selectors of the meta elements that declare a language (`lang.go`, 64-67). -/
def metaLangSelectors : List Str := [
  "meta[http-equiv='content-language' i]".toList,
  "meta[name='lang' i]".toList]

/-- The candidate languages of the detector for non-Latin scripts (`lang.go`, 69-74). -/
def linguaLanguages : List Language :=
  [Language.Arabic, Language.Russian, Language.Hindi, Language.Korean]

/-- The candidate languages of the detector for Latin scripts (`lang.go`, 76-82). -/
def linguaLatinLanguages : List Language :=
  [Language.French, Language.German, Language.Spanish, Language.Portuguese, Language.English]

/-- Lower-cased lingua name to language code (`lang.go`, 84-94). -/
def linguaMap : List (Str × Str) := [
  ("arabic".toList, "ar".toList),
  ("russian".toList, "ru".toList),
  ("hindi".toList, "hi".toList),
  ("korean".toList, "ko".toList),
  ("french".toList, "fr".toList),
  ("german".toList, "de".toList),
  ("spanish".toList, "es".toList),
  ("portuguese".toList, "pt".toList),
  ("english".toList, "en".toList)]

/-- The source tag of a charset detection. -/
def LangPosCharset : Str := "charset".toList
/-- The source tag of a markup detection. -/
def LangPosHtmlTag : Str := "html".toList
/-- The source tag of a body-ratio detection. -/
def LangPosBody : Str := "body".toList
/-- The source tag of a detection by the lingua detector. -/
def LangPosLingua : Str := "lingua".toList
/-- The source tag of a title detection. -/
def LangPosTd : Str := "td".toList
/-- The number of code points of a sample that are analysed. -/
def BodyChunkSize : Nat := 2048

/-- The result of a detection: the language code and the step that found it. -/
structure LangRes where
  Lang : Str
  LangPos : Str
  deriving DecidableEq, Repr

/-- A character class of a regular expression: one of the listed code points. -/
def charClass (cs : List Char) : RegularExpression Char :=
  cs.foldr (fun c r => RegularExpression.char c + r) 0

/-- The class `[a-z]` under the flag `(?i)`: Go's `regexp/syntax` closes a class under simple
case folding, which adds to the two ASCII ranges the long s (U+017F, folding to `s`) and the
Kelvin sign (U+212A, folding to `k`). -/
def foldAZ : List Char :=
  "abcdefghijklmnopqrstuvwxyzABCDEFGHIJKLMNOPQRSTUVWXYZ\u017f\u212a".toList

/-- The pattern `^(?i)([a-z]{2}|[a-z]{2}\-[a-z]+)$` (`lang.go`, 107), for the whole text. -/
def RegexLangHtml : RegularExpression Char :=
  charClass foldAZ * charClass foldAZ
    + charClass foldAZ * charClass foldAZ * RegularExpression.char '-'
      * (charClass foldAZ * RegularExpression.star (charClass foldAZ))

/-- The method `MatchString` of a pattern anchored at both ends by `^` and `$`: the whole
text matches the expression. -/
def MatchString (re : RegularExpression Char) (s : Str) : Bool :=
  re.rmatch s

/-- The class `[\p{Hiragana}|\p{Katakana}]` (`lang.go`, 232 and 287): inside the brackets the
bar is a literal character. -/
def jaClass (E : Env) (c : Char) : Bool :=
  E.Hiragana c || c == '|' || E.Katakana c

/-- The class `[a-zA-Z]` (`lang.go`, 306). -/
def englishClass (c : Char) : Bool :=
  ('a'.toNat ≤ c.toNat && c.toNat ≤ 'z'.toNat) || ('A'.toNat ≤ c.toNat && c.toNat ≤ 'Z'.toNat)

/-- The class `[\u0080-ÿ]` (`lang.go`, 314), the Latin-1 Supplement block. -/
def latinClass (c : Char) : Bool :=
  0x80 ≤ c.toNat && c.toNat ≤ 0xFF

/-- The class `[\pP\pS]` (`lang.go`, 223 and 268). -/
def signClass (E : Env) (c : Char) : Bool :=
  E.P c || E.S c

/-! ## The functions of `lang.go` -/

/-- Embedding of `bodyTextForLang` (`lang.go`, 345-377). -/
def bodyTextForLang (doc : Document) (list : Bool) : Str := Id.run do
  let mut text : Str := []
  if list then
    let aTagSize := doc.Size "a".toList
    if aTagSize ≥ 16 then
      let sliceMax := min aTagSize 64
      text := doc.SliceText "a".toList sliceMax
      if Count text '{' ≥ 5 ∧ Count text '}' ≥ 5 then
        text := []
  else
    let pTagSize := doc.Size "p".toList
    let sliceMax := min pTagSize 64
    text := doc.SliceText "p".toList sliceMax
    let textCount := text.length
    if textCount < 64 then
      text := doc.Text "body".toList
  return text

/-- Embedding of `LangFromHtml` (`lang.go`, 162-192). The `lang` of each `if` is a new
variable; the one returned on the last line is the outer one, never assigned. -/
def LangFromHtml (doc : Document) : Str := Id.run do
  let lang : Str := []
  if let some lang := doc.Attr "html".toList "lang".toList then
    let lang := TrimSpace lang
    if MatchString RegexLangHtml lang then
      let lang := SubString lang 0 2
      return lang
  if let some lang := doc.Attr "html".toList "xml:lang".toList then
    let lang := TrimSpace lang
    if MatchString RegexLangHtml lang then
      let lang := SubString lang 0 2
      return lang
  for selector in metaLangSelectors do
    if let some lang := doc.Attr selector "content".toList then
      let lang := TrimSpace lang
      if MatchString RegexLangHtml lang then
        let lang := SubString lang 0 2
        return lang
  return lang

/-- Embedding of `LangFromTitle` (`lang.go`, 193-253). -/
def LangFromTitle (E : Env) (doc : Document) (list : Bool) : Str × Str := Id.run do
  let lang : Str := []
  if list then
    let title := E.WebTitle doc 0
    let text := E.RemoveSign title
    let text := TrimSpace text
    if text ≠ [] then
      let han := FindAllString E.Han text
      if han ≠ [] then
        let hanCount := han.length
        if hanCount ≥ 2 then
          let bodyText := bodyTextForLang doc list
          let bodyText := RemoveLines bodyText
          let bodyText := ReplaceAll bodyText TAB []
          let bodyText := ReplaceAll bodyText "  ".toList []
          let bodyText := RemoveAll (signClass E) bodyText
          let bodyText := SubString bodyText 0 BodyChunkSize
          let bodyText := TrimSpace bodyText
          let bodyTextCount := bodyText.length
          let ja := FindAllString (jaClass E) bodyText
          if ja ≠ [] then
            let jaCount := ja.length
            let jaRate := float64Div jaCount bodyTextCount
            if jaRate.gt 0.1 then
              return ("ja".toList, LangPosTd)
          return ("zh".toList, LangPosTd)
  return (lang, [])

/-- Embedding of `LangFromUtf8Body` (`lang.go`, 255-343). -/
def LangFromUtf8Body (E : Env) (doc : Document) (list : Bool) : Str × Str := Id.run do
  let lang : Str := []
  let text := bodyTextForLang doc list
  let text := RemoveLines text
  let text := ReplaceAll text TAB []
  let text := ReplaceAll text "  ".toList []
  let text := RemoveAll (signClass E) text
  let text := SubString text 0 BodyChunkSize
  let text := TrimSpace text
  let textCount := text.length
  let han := FindAllString E.Han text
  if han ≠ [] then
    let hanCount := han.length
    let hanRate := float64Div hanCount textCount
    if hanRate.ge 0.38 then
      let ja := FindAllString (jaClass E) text
      if ja ≠ [] then
        let jaCount := ja.length
        let jaRate := float64Div jaCount hanCount
        if jaRate.gt 0.1 then
          return ("ja".toList, LangPosBody)
      return ("zh".toList, LangPosBody)
  let english := FindAllString englishClass text
  if english ≠ [] then
    let englishCount := english.length
    let englishRate := float64Div englishCount textCount
    if englishRate.gt 0.38 then
      let latin := FindAllString latinClass text
      if latin ≠ [] then
        let latinCount := latin.length
        if latinCount > 3 then
          if let some language := E.DetectLanguageOf linguaLatinLanguages text then
            let key := ToLower language.String
            let linguaLang := mapGet linguaMap key
            return (linguaLang, LangPosLingua)
      return ("en".toList, LangPosBody)
  if let some language := E.DetectLanguageOf linguaLanguages text then
    let key := ToLower language.String
    let linguaLang := mapGet linguaMap key
    return (linguaLang, LangPosLingua)
  return (lang, [])

/-- Embedding of `Lang` (`lang.go`, 121-160). -/
def Lang (E : Env) (doc : Document) (charset : Str) (list : Bool) : LangRes := Id.run do
  let mut res : LangRes := ⟨[], []⟩
  if charset ≠ [] then
    if mapHas CharsetLangMap charset then
      res := { res with Lang := mapGet CharsetLangMap charset }
      res := { res with LangPos := LangPosCharset }
      return res
  let (titleLang, pos) := LangFromTitle E doc list
  if titleLang ≠ [] then
    res := { res with Lang := titleLang }
    res := { res with LangPos := pos }
    return res
  let lang := LangFromHtml doc
  if lang ≠ [] ∧ lang ≠ "en".toList then
    res := { res with Lang := lang }
    res := { res with LangPos := LangPosHtmlTag }
    return res
  if HasPrefix charset "UTF".toList ∧ (lang = [] ∨ lang = "en".toList) then
    let (bodyLang, pos) := LangFromUtf8Body E doc list
    if bodyLang ≠ [] then
      res := { res with Lang := bodyLang }
      res := { res with LangPos := pos }
  return res

/-! ## Samples, counts and ratios, as the specification words them -/

/-- The Text Normalizer: the statements of `lang.go` 218-228, which are those of 263-273:
line breaks and tabs removed, double spaces removed, punctuation and symbols removed, at most
`BodyChunkSize` code points kept, white space trimmed at both ends. -/
def normalizeSample (E : Env) (text : Str) : Str :=
  TrimSpace (SubString (RemoveAll (signClass E)
    (ReplaceAll (ReplaceAll (RemoveLines text) TAB []) "  ".toList [])) 0 BodyChunkSize)

/-- The normalized body sample of a page. -/
def bodySample (E : Env) (doc : Document) (list : Bool) : Str :=
  normalizeSample E (bodyTextForLang doc list)

/-- The title of a page with its formatting marks removed, trimmed (`lang.go`, 200-202). -/
def cleanTitle (E : Env) (doc : Document) : Str :=
  TrimSpace (E.RemoveSign (E.WebTitle doc 0))

/-- The number of Han characters of a text. -/
def hanCount (E : Env) (s : Str) : Nat := (s.filter E.Han).length

/-- The number of characters of a text in the Hiragana or Katakana script. -/
def kanaCount (E : Env) (s : Str) : Nat :=
  (s.filter (fun c => E.Hiragana c || E.Katakana c)).length

/-- The number of letters `a-z`, `A-Z` of a text. -/
def englishCount (s : Str) : Nat := (s.filter englishClass).length

/-- The number of Latin-1 Supplement code points of a text. -/
def latinCount (s : Str) : Nat := (s.filter latinClass).length

/-- The language code of a language the detector answers (`lang.go`, 322-323 and 337-338). -/
def linguaCode (l : Language) : Str := mapGet linguaMap (ToLower l.String)

/-- The ratio of two counts, an exact rational. -/
def ratio (a b : ℕ) : ℚ := (a : ℚ) / (b : ℚ)

/-- The Han ratio of a sample. -/
def hanRatio (E : Env) (s : Str) : ℚ := ratio (hanCount E s) s.length

/-- The ratio of Hiragana and Katakana characters to all characters of a sample. -/
def kanaRatio (E : Env) (s : Str) : ℚ := ratio (kanaCount E s) s.length

/-- The ratio of the letters `a-z`, `A-Z` of a sample. -/
def englishRatio (s : Str) : ℚ := ratio (englishCount s) s.length

/-! ## The declared language, as the specification words it -/

/-- A letter of a language tag: `a` to `z` in either case, and the two code points that fold
to `s` and `k` (the long s U+017F and the Kelvin sign U+212A). -/
def tagLetter (c : Char) : Bool :=
  ('a'.toNat ≤ c.toNat && c.toNat ≤ 'z'.toNat) || ('A'.toNat ≤ c.toNat && c.toNat ≤ 'Z'.toNat)
    || c.toNat == 0x17F || c.toNat == 0x212A

/-- A valid declared value: a bare 2-letter code, or a 2-letter code followed by a hyphen and
a subtag of one or more letters. -/
def validLangTag : Str → Bool
  | [a, b] => tagLetter a && tagLetter b
  | a :: b :: c :: sub =>
    tagLetter a && tagLetter b && c == '-' && !sub.isEmpty && sub.all tagLetter
  | _ => false

/-- The candidate values in priority order: the `lang` attribute of the root element, its
`xml:lang` attribute, then the `content` attribute of each meta selector. -/
def langCandidates (doc : Document) : List (Option Str) :=
  doc.Attr "html".toList "lang".toList :: doc.Attr "html".toList "xml:lang".toList ::
    metaLangSelectors.map (fun selector => doc.Attr selector "content".toList)

/-- The Declared-Language Extractor of the specification: the first 2 characters of the first
candidate that is present and valid once trimmed; the empty string when there is none. -/
def declaredLanguage (doc : Document) : Str :=
  match ((langCandidates doc).filterMap (fun v => v.map TrimSpace)).find? validLangTag with
  | some v => v.take 2
  | none => []

/-! ## An environment and pages for worked examples -/

/-- Excerpt of the table of `\p{Han}`: the block of CJK unified ideographs. -/
def exampleHan (c : Char) : Bool := 0x4E00 ≤ c.toNat && c.toNat ≤ 0x9FFF

/-- Excerpt of the table of `\p{Hiragana}`: the Hiragana letters. -/
def exampleHiragana (c : Char) : Bool := 0x3041 ≤ c.toNat && c.toNat ≤ 0x3096

/-- Excerpt of the table of `\p{Katakana}`: the Katakana letters. -/
def exampleKatakana (c : Char) : Bool := 0x30A1 ≤ c.toNat && c.toNat ≤ 0x30FA

/-- Excerpt of the table of `\pP`: the ASCII punctuation. -/
def exampleP (c : Char) : Bool := "!\"#%&\x27()*,-./:;?@[\\]_\x7b\x7d".toList.contains c

/-- Excerpt of the table of `\pS`: the ASCII symbols. -/
def exampleS (c : Char) : Bool := "$+<=>^\x60|~".toList.contains c

/-- An environment over the excerpts. Its title is the text of the `title` elements and its
`RemoveSign` removes punctuation, symbols and white space; the detector is a parameter. -/
def exampleEnv (detect : List Language → Str → Option Language) : Env where
  Han := exampleHan
  Hiragana := exampleHiragana
  Katakana := exampleKatakana
  P := exampleP
  S := exampleS
  RemoveSign := fun s => s.filter (fun c => !(exampleP c || exampleS c || IsSpace c))
  WebTitle := fun doc _ => (doc.Texts "title".toList).flatten
  DetectLanguageOf := detect
  bar_symbol := by decide

/-- A detector that is never confident. -/
def noAnswer : List Language → Str → Option Language := fun _ _ => none

/-- A detector that always answers French. -/
def answerFrench : List Language → Str → Option Language := fun _ _ => some Language.French

/-- A content page that declares `lang="en"`, without paragraphs, whose body is accented
Latin text: 14 code points, 6 of them ASCII letters and 6 in the Latin-1 Supplement. -/
def frenchPage : Document where
  Attr := fun sel name =>
    if sel = "html".toList ∧ name = "lang".toList then some "en".toList else none
  Texts := fun sel => if sel = "body".toList then ["déjà élève été".toList] else []

/-- A content page without declared language whose body is plain ASCII text. -/
def englishPage : Document where
  Attr := fun _ _ => none
  Texts := fun sel => if sel = "body".toList then ["plain english text".toList] else []

/-- A content page whose body has 50 code points, 19 of them Han: a Han ratio of exactly
0.38. -/
def boundaryPage : Document where
  Attr := fun _ _ => none
  Texts := fun sel =>
    if sel = "body".toList then [List.replicate 19 '中' ++ List.replicate 31 'a'] else []

/-- A listing page with 10 anchors, an ASCII title and no declared language. -/
def sparseListing : Document where
  Attr := fun _ _ => none
  Texts := fun sel =>
    if sel = "title".toList then ["News".toList]
    else if sel = "a".toList then List.replicate 10 "news".toList
    else []

/-- A listing page that declares `lang="zh"`, with a title of six Han characters and sixteen
anchors in Katakana. -/
def japaneseListing : Document where
  Attr := fun sel name =>
    if sel = "html".toList ∧ name = "lang".toList then some "zh".toList else none
  Texts := fun sel =>
    if sel = "title".toList then ["日本語_新華網".toList]
    else if sel = "a".toList then List.replicate 16 "ニュース".toList
    else []

/-- A content page without text that declares `lang="FR"`, in upper case. -/
def upperCasePage : Document where
  Attr := fun sel name =>
    if sel = "html".toList ∧ name = "lang".toList then some "FR".toList else none
  Texts := fun _ => []

/-- A content page that declares `lang="sv"`, a code outside the language-name table. -/
def swedishPage : Document where
  Attr := fun sel name =>
    if sel = "html".toList ∧ name = "lang".toList then some "sv".toList else none
  Texts := fun _ => []

/-- A content page whose body is 10 Han characters and 1 Hiragana character: a ratio of
kana to Han of exactly 0.10. -/
def kanaBoundaryPage : Document where
  Attr := fun _ _ => none
  Texts := fun sel =>
    if sel = "body".toList then [List.replicate 10 '中' ++ ['あ']] else []

/-- A content page whose body is Hangul text. -/
def koreanPage : Document where
  Attr := fun _ _ => none
  Texts := fun sel => if sel = "body".toList then ["한국어 뉴스".toList] else []

/-- A content page whose single paragraph is 30 Han characters, 90 bytes of UTF-8. -/
def shortHanPage : Document where
  Attr := fun _ _ => none
  Texts := fun sel =>
    if sel = "p".toList then [List.replicate 30 '中']
    else if sel = "body".toList then ["body text".toList]
    else []

/-- A listing page whose 16 anchors hold template syntax. -/
def templateListing : Document where
  Attr := fun _ _ => none
  Texts := fun sel =>
    if sel = "a".toList then List.replicate 16 "\x7b\x7bitem.title\x7d\x7d".toList else []

/-- A detector that always answers Korean. -/
def answerKorean : List Language → Str → Option Language := fun _ _ => some Language.Korean

/-! ## Language codes and source tags, as the specification words them -/

/-- The known language codes: the keys of the language-name table. -/
def knownCodes : List Str := LangEnZhMap.map Prod.fst

/-- A lower-case code: each of its characters is one of `a` to `z`. -/
def lowerCase (s : Str) : Bool :=
  s.all (fun c => 'a'.toNat ≤ c.toNat && c.toNat ≤ 'z'.toNat)

/-- The five source tags. -/
def sourceTags : List Str :=
  [LangPosCharset, LangPosHtmlTag, LangPosTd, LangPosBody, LangPosLingua]

/-! ## The quotients, checked -/

/-- Go's `float64(a) / float64(b)` with the divisor checked: nothing when `b` is zero. -/
def checkedDiv (a b : ℕ) : Option F64 :=
  if b = 0 then none else some (float64Div a b)

/-- The function `LangFromTitle` with every quotient checked: the statements of `lang.go`
193-253, failing (`none`) if a quotient is evaluated with a zero divisor. -/
def LangFromTitleChecked (E : Env) (doc : Document) (list : Bool) : Option (Str × Str) := do
  let lang : Str := []
  if list then
    let title := E.WebTitle doc 0
    let text := E.RemoveSign title
    let text := TrimSpace text
    if text ≠ [] then
      let han := FindAllString E.Han text
      if han ≠ [] then
        let hanCount := han.length
        if hanCount ≥ 2 then
          let bodyText := bodyTextForLang doc list
          let bodyText := RemoveLines bodyText
          let bodyText := ReplaceAll bodyText TAB []
          let bodyText := ReplaceAll bodyText "  ".toList []
          let bodyText := RemoveAll (signClass E) bodyText
          let bodyText := SubString bodyText 0 BodyChunkSize
          let bodyText := TrimSpace bodyText
          let bodyTextCount := bodyText.length
          let ja := FindAllString (jaClass E) bodyText
          if ja ≠ [] then
            let jaCount := ja.length
            let jaRate ← checkedDiv jaCount bodyTextCount
            if jaRate.gt 0.1 then
              return ("ja".toList, LangPosTd)
          return ("zh".toList, LangPosTd)
  return (lang, [])

/-- The function `LangFromUtf8Body` with every quotient checked: the statements of `lang.go`
255-343, failing (`none`) if a quotient is evaluated with a zero divisor. -/
def LangFromUtf8BodyChecked (E : Env) (doc : Document) (list : Bool) : Option (Str × Str) := do
  let lang : Str := []
  let text := bodyTextForLang doc list
  let text := RemoveLines text
  let text := ReplaceAll text TAB []
  let text := ReplaceAll text "  ".toList []
  let text := RemoveAll (signClass E) text
  let text := SubString text 0 BodyChunkSize
  let text := TrimSpace text
  let textCount := text.length
  let han := FindAllString E.Han text
  if han ≠ [] then
    let hanCount := han.length
    let hanRate ← checkedDiv hanCount textCount
    if hanRate.ge 0.38 then
      let ja := FindAllString (jaClass E) text
      if ja ≠ [] then
        let jaCount := ja.length
        let jaRate ← checkedDiv jaCount hanCount
        if jaRate.gt 0.1 then
          return ("ja".toList, LangPosBody)
      return ("zh".toList, LangPosBody)
  let english := FindAllString englishClass text
  if english ≠ [] then
    let englishCount := english.length
    let englishRate ← checkedDiv englishCount textCount
    if englishRate.gt 0.38 then
      let latin := FindAllString latinClass text
      if latin ≠ [] then
        let latinCount := latin.length
        if latinCount > 3 then
          if let some language := E.DetectLanguageOf linguaLatinLanguages text then
            let key := ToLower language.String
            let linguaLang := mapGet linguaMap key
            return (linguaLang, LangPosLingua)
      return ("en".toList, LangPosBody)
  if let some language := E.DetectLanguageOf linguaLanguages text then
    let key := ToLower language.String
    let linguaLang := mapGet linguaMap key
    return (linguaLang, LangPosLingua)
  return (lang, [])

/-! ## float64 rounding: monotone, exact on the thresholds -/

theorem roundHalfEven_intCast (z : ℤ) : roundHalfEven (z : ℚ) = z := by
  simp [roundHalfEven]

theorem roundHalfEven_mono {x y : ℚ} (h : x ≤ y) : roundHalfEven x ≤ roundHalfEven y := by
  have hf : ⌊x⌋ ≤ ⌊y⌋ := Int.floor_mono h
  have hx1 := Int.floor_le x
  have hx2 := Int.lt_floor_add_one x
  have hy1 := Int.floor_le y
  have hy2 := Int.lt_floor_add_one y
  rcases hf.lt_or_eq with hlt | heq
  · have h1 : roundHalfEven x ≤ ⌊x⌋ + 1 := by
      unfold roundHalfEven; split_ifs <;> omega
    have h2 : ⌊y⌋ ≤ roundHalfEven y := by
      unfold roundHalfEven; split_ifs <;> omega
    omega
  · unfold roundHalfEven
    rw [heq] at *
    split_ifs <;> first | omega | (exfalso; linarith)

theorem two_zpow_pos (e : ℤ) : (0 : ℚ) < 2 ^ e := zpow_pos (by norm_num) e

theorem roundFloat64_nonneg (x : ℚ) : 0 ≤ roundFloat64 x := by
  unfold roundFloat64
  split_ifs with h
  · exact le_refl 0
  · push_neg at h
    have hm : (0 : ℚ) ≤ x / 2 ^ (Int.log 2 x - 52) := (div_pos h (two_zpow_pos _)).le
    have : roundHalfEven ((0 : ℤ) : ℚ) ≤ roundHalfEven (x / 2 ^ (Int.log 2 x - 52)) :=
      roundHalfEven_mono (by simpa using hm)
    rw [roundHalfEven_intCast] at this
    exact mul_nonneg (by exact_mod_cast this) (two_zpow_pos _).le

theorem ulp_mul (n : ℕ) (e : ℤ) : (2 : ℚ) ^ n * 2 ^ (e - n) = 2 ^ e := by
  rw [← zpow_natCast, ← zpow_add₀ (by norm_num : (2 : ℚ) ≠ 0)]
  congr 1
  ring

theorem roundFloat64_lower {x : ℚ} (hx : 0 < x) : (2 : ℚ) ^ Int.log 2 x ≤ roundFloat64 x := by
  unfold roundFloat64
  rw [if_neg (not_le.mpr hx)]
  have hlog : ((2 : ℕ) : ℚ) ^ Int.log 2 x ≤ x := Int.zpow_log_le_self (by norm_num) hx
  have hu := two_zpow_pos (Int.log 2 x - 52)
  have key : (((2 ^ 52 : ℤ)) : ℚ) * 2 ^ (Int.log 2 x - 52) = 2 ^ Int.log 2 x := by
    have := ulp_mul 52 (Int.log 2 x)
    push_cast at this ⊢
    exact this
  have hm : (((2 ^ 52 : ℤ)) : ℚ) ≤ x / 2 ^ (Int.log 2 x - 52) := by
    rw [le_div_iff₀ hu, key]
    exact_mod_cast hlog
  have := roundHalfEven_mono hm
  rw [roundHalfEven_intCast] at this
  have h2 : (((2 ^ 52 : ℤ)) : ℚ) ≤ (roundHalfEven (x / 2 ^ (Int.log 2 x - 52)) : ℚ) := by
    exact_mod_cast this
  calc (2 : ℚ) ^ Int.log 2 x = (((2 ^ 52 : ℤ)) : ℚ) * 2 ^ (Int.log 2 x - 52) := key.symm
    _ ≤ _ := mul_le_mul_of_nonneg_right h2 hu.le

theorem roundFloat64_upper {x : ℚ} (hx : 0 < x) :
    roundFloat64 x ≤ (2 : ℚ) ^ (Int.log 2 x + 1) := by
  unfold roundFloat64
  rw [if_neg (not_le.mpr hx)]
  have hlog : x < ((2 : ℕ) : ℚ) ^ (Int.log 2 x + 1) := Int.lt_zpow_succ_log_self (by norm_num) x
  have hu := two_zpow_pos (Int.log 2 x - 52)
  have key : (((2 ^ 53 : ℤ)) : ℚ) * 2 ^ (Int.log 2 x - 52) = 2 ^ (Int.log 2 x + 1) := by
    have := ulp_mul 53 (Int.log 2 x + 1)
    have e : Int.log 2 x + 1 - ((53 : ℕ) : ℤ) = Int.log 2 x - 52 := by push_cast; ring
    rw [e] at this
    push_cast at this ⊢
    exact this
  have hm : x / 2 ^ (Int.log 2 x - 52) ≤ (((2 ^ 53 : ℤ)) : ℚ) := by
    rw [div_le_iff₀ hu, key]
    exact_mod_cast hlog.le
  have := roundHalfEven_mono hm
  rw [roundHalfEven_intCast] at this
  have h2 : (roundHalfEven (x / 2 ^ (Int.log 2 x - 52)) : ℚ) ≤ (((2 ^ 53 : ℤ)) : ℚ) := by
    exact_mod_cast this
  calc _ ≤ (((2 ^ 53 : ℤ)) : ℚ) * 2 ^ (Int.log 2 x - 52) :=
        mul_le_mul_of_nonneg_right h2 hu.le
    _ = _ := key

theorem roundFloat64_mono {x y : ℚ} (h : x ≤ y) : roundFloat64 x ≤ roundFloat64 y := by
  rcases le_or_lt x 0 with hx | hx
  · have : roundFloat64 x = 0 := by unfold roundFloat64; rw [if_pos hx]
    rw [this]; exact roundFloat64_nonneg y
  · have hy : 0 < y := lt_of_lt_of_le hx h
    have hlog : Int.log 2 x ≤ Int.log 2 y := Int.log_mono_right hx h
    rcases hlog.lt_or_eq with hlt | heq
    · calc roundFloat64 x ≤ (2 : ℚ) ^ (Int.log 2 x + 1) := roundFloat64_upper hx
        _ ≤ (2 : ℚ) ^ Int.log 2 y := zpow_le_zpow_right₀ (by norm_num) (by omega)
        _ ≤ roundFloat64 y := roundFloat64_lower hy
    · unfold roundFloat64
      rw [if_neg (not_le.mpr hx), if_neg (not_le.mpr hy), heq]
      have hu := two_zpow_pos (Int.log 2 y - 52)
      have := roundHalfEven_mono (div_le_div_of_nonneg_right h hu.le)
      exact mul_le_mul_of_nonneg_right (by exact_mod_cast this) hu.le

theorem log_two_dyadic {k : ℕ} (j : ℤ) (hk : k ≠ 0) :
    Int.log 2 ((k : ℚ) * 2 ^ j) = (Nat.log 2 k : ℤ) + j := by
  have hx : (0 : ℚ) < (k : ℚ) * 2 ^ j :=
    mul_pos (by exact_mod_cast Nat.pos_of_ne_zero hk) (two_zpow_pos j)
  have h1 : 2 ^ Nat.log 2 k ≤ k := Nat.pow_log_le_self 2 hk
  have h2 : k < 2 ^ (Nat.log 2 k + 1) := Nat.lt_pow_succ_log_self (by norm_num) k
  apply le_antisymm
  · have : Int.log 2 ((k : ℚ) * 2 ^ j) < (Nat.log 2 k : ℤ) + j + 1 := by
      rw [← Int.lt_zpow_iff_log_lt (by norm_num) hx]
      have e : ((2 : ℕ) : ℚ) ^ ((Nat.log 2 k : ℤ) + j + 1)
          = ((2 ^ (Nat.log 2 k + 1) : ℕ) : ℚ) * 2 ^ j := by
        rw [add_right_comm, zpow_add₀ (by norm_num : ((2 : ℕ) : ℚ) ≠ 0)]
        push_cast
        norm_cast
      rw [e]
      exact mul_lt_mul_of_pos_right (by exact_mod_cast h2) (two_zpow_pos j)
    omega
  · rw [← Int.zpow_le_iff_le_log (by norm_num) hx]
    have e : ((2 : ℕ) : ℚ) ^ ((Nat.log 2 k : ℤ) + j) = ((2 ^ Nat.log 2 k : ℕ) : ℚ) * 2 ^ j := by
      rw [zpow_add₀ (by norm_num : ((2 : ℕ) : ℚ) ≠ 0)]
      push_cast
      norm_cast
    rw [e]
    exact mul_le_mul_of_nonneg_right (by exact_mod_cast h1) (two_zpow_pos j).le

/-- Every `k * 2 ^ j` with `k < 2 ^ 53` is a float64 value: rounding leaves it unchanged. -/
theorem roundFloat64_dyadic (k : ℕ) (j : ℤ) (hk : k < 2 ^ 53) :
    roundFloat64 ((k : ℚ) * 2 ^ j) = (k : ℚ) * 2 ^ j := by
  rcases Nat.eq_zero_or_pos k with h0 | hpos
  · subst h0; simp [roundFloat64]
  have hk0 : k ≠ 0 := Nat.pos_iff_ne_zero.mp hpos
  have hx : (0 : ℚ) < (k : ℚ) * 2 ^ j :=
    mul_pos (by exact_mod_cast hpos) (two_zpow_pos j)
  have hL : Nat.log 2 k ≤ 52 := by
    have h1 : 2 ^ Nat.log 2 k ≤ k := Nat.pow_log_le_self 2 hk0
    have : 2 ^ Nat.log 2 k < 2 ^ 53 := lt_of_le_of_lt h1 hk
    have := (Nat.pow_lt_pow_iff_right (by norm_num : 1 < 2)).mp this
    omega
  unfold roundFloat64
  rw [if_neg (not_le.mpr hx), log_two_dyadic j hk0]
  have hq : (k : ℚ) * 2 ^ j / 2 ^ ((Nat.log 2 k : ℤ) + j - 52)
      = (((k * 2 ^ (52 - Nat.log 2 k) : ℕ) : ℤ) : ℚ) := by
    rw [div_eq_iff (two_zpow_pos _).ne']
    push_cast
    rw [mul_assoc]
    congr 1
    rw [← zpow_natCast, ← zpow_add₀ (by norm_num : (2 : ℚ) ≠ 0)]
    congr 1
    push_cast [Nat.cast_sub hL]
    ring
  rw [hq, roundHalfEven_intCast, ← hq]
  exact div_mul_cancel₀ _ (two_zpow_pos _).ne'

theorem roundFloat64_natCast (n : ℕ) (hn : n < 2 ^ 53) : roundFloat64 (n : ℚ) = n := by
  simpa using roundFloat64_dyadic n 0 hn

theorem float64Div_fin {a b : ℕ} (hb : 0 < b) (ha : a < 2 ^ 53) (hb2 : b < 2 ^ 53) :
    float64Div a b = F64.fin (roundFloat64 ((a : ℚ) / b)) := by
  have hbq : (b : ℚ) ≠ 0 := by exact_mod_cast hb.ne'
  simp [float64Div, roundFloat64_natCast a ha, roundFloat64_natCast b hb2, hbq]

theorem roundFloat64_dyadic21 (k : ℕ) (hk : k < 2 ^ 53) :
    roundFloat64 ((k : ℚ) / 2 ^ 21) = (k : ℚ) / 2 ^ 21 := by
  have := roundFloat64_dyadic k (-21) hk
  have e : (k : ℚ) * 2 ^ (-21 : ℤ) = (k : ℚ) / 2 ^ 21 := by
    rw [zpow_neg, div_eq_mul_inv]; norm_cast
  rwa [e] at this

/-- On counts up to 2048 the float64 test `a/b >= 0.38` is the exact test `38 b ≤ 100 a`. -/
theorem float64Div_ge_038 {a b : ℕ} (hb : 0 < b) (hb2 : b ≤ 2048) (ha : a ≤ 2048) :
    (float64Div a b).ge 0.38 = true ↔ 38 * b ≤ 100 * a := by
  have hbq : (0 : ℚ) < b := by exact_mod_cast hb
  rw [float64Div_fin hb (by omega) (by omega)]
  simp only [F64.ge, decide_eq_true_eq]
  constructor
  · intro h
    by_contra hlt
    push_neg at hlt
    have h1 : (a : ℚ) / b ≤ (796916 : ℕ) / 2 ^ 21 := by
      rw [div_le_div_iff₀ hbq (by norm_num)]
      have : a * 2 ^ 21 ≤ 796916 * b := by omega
      exact_mod_cast this
    have h2 := roundFloat64_mono h1
    rw [roundFloat64_dyadic21 _ (by norm_num)] at h2
    have h3 : ((796917 : ℕ) : ℚ) / 2 ^ 21 ≤ 0.38 := by norm_num
    have h4 := roundFloat64_mono h3
    rw [roundFloat64_dyadic21 _ (by norm_num)] at h4
    have h5 : ((796916 : ℕ) : ℚ) / 2 ^ 21 < (796917 : ℕ) / 2 ^ 21 := by norm_num
    linarith
  · intro h
    apply roundFloat64_mono
    rw [le_div_iff₀ hbq]
    have : (38 : ℚ) * b ≤ 100 * a := by exact_mod_cast h
    norm_num
    linarith

/-- On counts up to 2048 the float64 test `a/b > 0.38` is the exact test `38 b < 100 a`. -/
theorem float64Div_gt_038 {a b : ℕ} (hb : 0 < b) (hb2 : b ≤ 2048) (ha : a ≤ 2048) :
    (float64Div a b).gt 0.38 = true ↔ 38 * b < 100 * a := by
  have hbq : (0 : ℚ) < b := by exact_mod_cast hb
  rw [float64Div_fin hb (by omega) (by omega)]
  simp only [F64.gt, decide_eq_true_eq]
  constructor
  · intro h
    by_contra hle
    push_neg at hle
    have h1 : (a : ℚ) / b ≤ 0.38 := by
      rw [div_le_iff₀ hbq]
      have : (100 : ℚ) * a ≤ 38 * b := by exact_mod_cast hle
      norm_num
      linarith
    have := roundFloat64_mono h1
    linarith
  · intro h
    have h1 : ((796920 : ℕ) : ℚ) / 2 ^ 21 ≤ (a : ℚ) / b := by
      rw [div_le_div_iff₀ (by norm_num) hbq]
      have : 796920 * b ≤ a * 2 ^ 21 := by omega
      exact_mod_cast this
    have h2 := roundFloat64_mono h1
    rw [roundFloat64_dyadic21 _ (by norm_num)] at h2
    have h3 : (0.38 : ℚ) ≤ ((796918 : ℕ) : ℚ) / 2 ^ 21 := by norm_num
    have h4 := roundFloat64_mono h3
    rw [roundFloat64_dyadic21 _ (by norm_num)] at h4
    have h5 : ((796918 : ℕ) : ℚ) / 2 ^ 21 < (796920 : ℕ) / 2 ^ 21 := by norm_num
    linarith

/-- On counts up to 2048 the float64 test `a/b > 0.1` is the exact test `b < 10 a`. -/
theorem float64Div_gt_01 {a b : ℕ} (hb : 0 < b) (hb2 : b ≤ 2048) (ha : a ≤ 2048) :
    (float64Div a b).gt 0.1 = true ↔ b < 10 * a := by
  have hbq : (0 : ℚ) < b := by exact_mod_cast hb
  rw [float64Div_fin hb (by omega) (by omega)]
  simp only [F64.gt, decide_eq_true_eq]
  constructor
  · intro h
    by_contra hle
    push_neg at hle
    have h1 : (a : ℚ) / b ≤ 0.1 := by
      rw [div_le_iff₀ hbq]
      have : (10 : ℚ) * a ≤ b := by exact_mod_cast hle
      norm_num
      linarith
    have := roundFloat64_mono h1
    linarith
  · intro h
    have h1 : ((209718 : ℕ) : ℚ) / 2 ^ 21 ≤ (a : ℚ) / b := by
      rw [div_le_div_iff₀ (by norm_num) hbq]
      have : 209718 * b ≤ a * 2 ^ 21 := by omega
      exact_mod_cast this
    have h2 := roundFloat64_mono h1
    rw [roundFloat64_dyadic21 _ (by norm_num)] at h2
    have h3 : (0.1 : ℚ) ≤ ((209716 : ℕ) : ℚ) / 2 ^ 21 := by norm_num
    have h4 := roundFloat64_mono h3
    rw [roundFloat64_dyadic21 _ (by norm_num)] at h4
    have h5 : ((209716 : ℕ) : ℚ) / 2 ^ 21 < (209718 : ℕ) / 2 ^ 21 := by norm_num
    linarith

/-! ## The functions in closed form -/

theorem TrimSpace_sublist (s : Str) : (TrimSpace s).Sublist s :=
  ((List.rdropWhile_prefix _ _).sublist).trans (List.dropWhile_sublist _)

theorem normalizeSample_length (E : Env) (t : Str) : (normalizeSample E t).length ≤ 2048 := by
  unfold normalizeSample
  refine le_trans (TrimSpace_sublist _).length_le ?_
  simp [SubString, BodyChunkSize]

theorem normalizeSample_sign (E : Env) (t : Str) (c : Char) (h : c ∈ normalizeSample E t) :
    signClass E c = false := by
  unfold normalizeSample at h
  have h1 := (TrimSpace_sublist _).subset h
  simp only [SubString, List.drop_zero] at h1
  have h2 := List.mem_of_mem_take h1
  simp [RemoveAll] at h2
  exact h2.2

theorem jaClass_filter (E : Env) (t : Str) :
    (normalizeSample E t).filter (jaClass E) =
      (normalizeSample E t).filter (fun c => E.Hiragana c || E.Katakana c) := by
  apply List.filter_congr
  intro c hc
  have h := normalizeSample_sign E t c hc
  have hb : c ≠ '|' := by
    rintro rfl
    simp [signClass, E.bar_symbol] at h
  simp [jaClass, hb]
  cases E.Hiragana c <;> simp
  exact fun h => absurd h hb

theorem normalizeSample_fold (E : Env) (t : Str) :
    TrimSpace (SubString (RemoveAll (signClass E)
      (ReplaceAll (ReplaceAll (RemoveLines t) TAB []) "  ".toList [])) 0 BodyChunkSize)
      = normalizeSample E t := rfl

theorem kanaCount_le (E : Env) (s : Str) : kanaCount E s ≤ s.length :=
  List.length_filter_le _ _

theorem hanCount_le (E : Env) (s : Str) : hanCount E s ≤ s.length :=
  List.length_filter_le _ _

theorem ite_ite_pos {α : Type} {p q : Prop} [Decidable p] [Decidable q] (h : p ∧ q)
    (x r : α) : (if p then if q then x else r else r) = x := by
  rw [if_pos h.1, if_pos h.2]

theorem ite_ite_neg {α : Type} {p q : Prop} [Decidable p] [Decidable q] (h : ¬(p ∧ q))
    (x r : α) : (if p then if q then x else r else r) = r := by
  by_cases hp : p
  · rw [if_pos hp, if_neg (fun hq => h ⟨hp, hq⟩)]
  · rw [if_neg hp]

/-- The float64 test `len(l)/N > 0.1` behind `l != nil`, in exact arithmetic. -/
theorem gt01_test (l : List Char) (N : ℕ) (hN : N ≤ 2048) (hl : l.length ≤ 2048)
    (hpos : l ≠ [] → 0 < N) :
    (l ≠ [] ∧ (float64Div l.length N).gt 0.1 = true) ↔ N < 10 * l.length := by
  by_cases h : l = []
  · subst h; simp
  · rw [float64Div_gt_01 (hpos h) hN hl]
    simp [h]

/-- The float64 test `len(l)/N > 0.38` behind `l != nil`, in exact arithmetic. -/
theorem gt038_test (l : List Char) (N : ℕ) (hN : N ≤ 2048) (hl : l.length ≤ 2048)
    (hpos : l ≠ [] → 0 < N) :
    (l ≠ [] ∧ (float64Div l.length N).gt 0.38 = true) ↔ 38 * N < 100 * l.length := by
  by_cases h : l = []
  · subst h; simp
  · rw [float64Div_gt_038 (hpos h) hN hl]
    simp [h]

/-- The float64 test `len(l)/N >= 0.38` behind `l != nil`, in exact arithmetic. -/
theorem ge038_test (l : List Char) (N : ℕ) (hN : N ≤ 2048) (hl : l.length ≤ 2048)
    (hpos : l ≠ [] → 0 < N) :
    (l ≠ [] ∧ (float64Div l.length N).ge 0.38 = true) ↔ 0 < N ∧ 38 * N ≤ 100 * l.length := by
  by_cases h : l = []
  · subst h
    simp only [ne_eq, not_true_eq_false, false_and, List.length_nil, false_iff]
    omega
  · rw [float64Div_ge_038 (hpos h) hN hl]
    simp [h, hpos h]

theorem filter_pos_of_ne_nil {p : Char → Bool} {s : Str} (h : s.filter p ≠ []) :
    0 < s.length := by
  rcases s with _ | ⟨c, t⟩
  · simp at h
  · simp

/-- The kana test of `LangFromTitle` on a normalized sample, in exact arithmetic. -/
theorem title_kana_test (E : Env) (t : Str) :
    (FindAllString (jaClass E) (normalizeSample E t) ≠ [] ∧
      (float64Div (FindAllString (jaClass E) (normalizeSample E t)).length
        (normalizeSample E t).length).gt 0.1 = true)
      ↔ (normalizeSample E t).length < 10 * kanaCount E (normalizeSample E t) := by
  have hN := normalizeSample_length E t
  have hk := kanaCount_le E (normalizeSample E t)
  simp only [FindAllString, jaClass_filter]
  exact gt01_test _ _ hN (le_trans hk hN) filter_pos_of_ne_nil

theorem LangFromTitle_eq (E : Env) (doc : Document) (list : Bool) :
    LangFromTitle E doc list =
      if list = true ∧ 2 ≤ hanCount E (cleanTitle E doc) then
        if (bodySample E doc true).length < 10 * kanaCount E (bodySample E doc true) then
          ("ja".toList, LangPosTd)
        else ("zh".toList, LangPosTd)
      else ([], []) := by
  unfold LangFromTitle
  simp only [Id.run, pure, bind, normalizeSample_fold]
  cases list
  · simp
  · have key := title_kana_test E (bodyTextForLang doc true)
    simp only [bodySample, hanCount, cleanTitle, FindAllString] at key ⊢
    by_cases h2 : 2 ≤ (List.filter E.Han (TrimSpace (E.RemoveSign (E.WebTitle doc 0)))).length
    · have hne : List.filter E.Han (TrimSpace (E.RemoveSign (E.WebTitle doc 0))) ≠ [] := by
        intro h; rw [h] at h2; simp at h2
      have hne2 : TrimSpace (E.RemoveSign (E.WebTitle doc 0)) ≠ [] := by
        intro h; rw [h] at hne; simp at hne
      simp only [hne, hne2, h2, ge_iff_le, ne_eq, not_false_eq_true, if_true, true_and]
      by_cases hk : (normalizeSample E (bodyTextForLang doc true)).length
          < 10 * kanaCount E (normalizeSample E (bodyTextForLang doc true))
      · obtain ⟨k1, k2⟩ := key.mpr hk
        simp [hk, k1, k2]
      · rw [if_neg hk]
        have := mt key.mp hk
        by_cases k1 : List.filter (jaClass E) (normalizeSample E (bodyTextForLang doc true)) = []
        · simp [k1]
        · have k2 := Bool.eq_false_iff.mpr (fun h => this ⟨k1, h⟩)
          simp [k1, k2]
    · simp only [h2, ge_iff_le, and_false, if_false, true_and]
      split_ifs <;> rfl

theorem LangFromUtf8Body_eq (E : Env) (doc : Document) (list : Bool) :
    LangFromUtf8Body E doc list =
      if 0 < (bodySample E doc list).length ∧
          38 * (bodySample E doc list).length ≤ 100 * hanCount E (bodySample E doc list) then
        if hanCount E (bodySample E doc list) < 10 * kanaCount E (bodySample E doc list) then
          ("ja".toList, LangPosBody)
        else ("zh".toList, LangPosBody)
      else if 38 * (bodySample E doc list).length < 100 * englishCount (bodySample E doc list) then
        if 3 < latinCount (bodySample E doc list) then
          match E.DetectLanguageOf linguaLatinLanguages (bodySample E doc list) with
          | some l => (linguaCode l, LangPosLingua)
          | none => ("en".toList, LangPosBody)
        else ("en".toList, LangPosBody)
      else
        match E.DetectLanguageOf linguaLanguages (bodySample E doc list) with
        | some l => (linguaCode l, LangPosLingua)
        | none => ([], []) := by
  unfold LangFromUtf8Body
  simp only [Id.run, pure, bind, normalizeSample_fold]
  have hb : normalizeSample E (bodyTextForLang doc list) = bodySample E doc list := rfl
  have hN : (bodySample E doc list).length ≤ 2048 := normalizeSample_length E _
  have hja : (bodySample E doc list).filter (jaClass E) =
      (bodySample E doc list).filter (fun c => E.Hiragana c || E.Katakana c) :=
    jaClass_filter E _
  simp only [hb, hanCount, kanaCount, englishCount, latinCount, linguaCode, FindAllString, hja]
  have hlen : ∀ p : Char → Bool, ((bodySample E doc list).filter p).length ≤ 2048 :=
    fun p => le_trans (List.length_filter_le _ _) hN
  have tH := ge038_test ((bodySample E doc list).filter E.Han) (bodySample E doc list).length
    hN (hlen _) filter_pos_of_ne_nil
  have tE := gt038_test ((bodySample E doc list).filter englishClass)
    (bodySample E doc list).length hN (hlen _) filter_pos_of_ne_nil
  by_cases hH : 0 < (bodySample E doc list).length ∧
      38 * (bodySample E doc list).length ≤ 100 * ((bodySample E doc list).filter E.Han).length
  · rw [ite_ite_pos (tH.mpr hH), if_pos hH]
    have hpos : 0 < ((bodySample E doc list).filter E.Han).length := by omega
    have tK := gt01_test ((bodySample E doc list).filter (fun c => E.Hiragana c || E.Katakana c))
      ((bodySample E doc list).filter E.Han).length (hlen _) (hlen _) (fun _ => hpos)
    by_cases hK : ((bodySample E doc list).filter E.Han).length
        < 10 * ((bodySample E doc list).filter (fun c => E.Hiragana c || E.Katakana c)).length
    · rw [ite_ite_pos (tK.mpr hK), if_pos hK]
    · rw [ite_ite_neg (mt tK.mp hK), if_neg hK]
  · rw [ite_ite_neg (mt tH.mp hH), if_neg hH]
    by_cases hE : 38 * (bodySample E doc list).length
        < 100 * ((bodySample E doc list).filter englishClass).length
    · rw [ite_ite_pos (tE.mpr hE), if_pos hE]
      by_cases hL : 3 < ((bodySample E doc list).filter latinClass).length
      · have hne : (bodySample E doc list).filter latinClass ≠ [] := by
          intro h; rw [h] at hL; simp at hL
        rw [ite_ite_pos ⟨hne, hL⟩, if_pos hL]
        cases E.DetectLanguageOf linguaLatinLanguages (bodySample E doc list) <;> rfl
      · rw [ite_ite_neg (fun h => hL h.2), if_neg hL]
    · rw [ite_ite_neg (mt tE.mp hE), if_neg hE]
      cases E.DetectLanguageOf linguaLanguages (bodySample E doc list) <;> rfl

theorem Lang_eq (E : Env) (doc : Document) (charset : Str) (list : Bool) :
    Lang E doc charset list =
      if charset ≠ [] ∧ mapHas CharsetLangMap charset = true then
        ⟨mapGet CharsetLangMap charset, LangPosCharset⟩
      else if (LangFromTitle E doc list).1 ≠ [] then
        ⟨(LangFromTitle E doc list).1, (LangFromTitle E doc list).2⟩
      else if LangFromHtml doc ≠ [] ∧ LangFromHtml doc ≠ "en".toList then
        ⟨LangFromHtml doc, LangPosHtmlTag⟩
      else if HasPrefix charset "UTF".toList = true ∧ (LangFromUtf8Body E doc list).1 ≠ [] then
        ⟨(LangFromUtf8Body E doc list).1, (LangFromUtf8Body E doc list).2⟩
      else ⟨[], []⟩ := by
  unfold Lang
  simp only [Id.run, pure, bind]
  generalize LangFromTitle E doc list = t
  generalize LangFromHtml doc = h
  generalize LangFromUtf8Body E doc list = b
  generalize mapHas CharsetLangMap charset = m
  generalize mapGet CharsetLangMap charset = g
  generalize HasPrefix charset "UTF".toList = u
  generalize "en".toList = en
  by_cases h1 : charset ≠ [] ∧ m = true
  · rw [if_pos h1.1, if_pos h1.2, if_pos h1]
  · rw [if_neg h1]
    have e : ∀ x : LangRes, (if charset ≠ [] then if m = true then
        (⟨g, LangPosCharset⟩ : LangRes) else x else x) = x := fun x => ite_ite_neg h1 _ x
    rw [e]
    by_cases h2 : t.1 ≠ []
    · rw [if_pos h2, if_pos h2]
    · rw [if_neg h2, if_neg h2]
      by_cases h3 : h ≠ [] ∧ h ≠ en
      · rw [if_pos h3, if_pos h3]
      · rw [if_neg h3, if_neg h3]
        have h4 : h = [] ∨ h = en := by
          by_cases h5 : h = []
          · exact Or.inl h5
          · exact Or.inr (by_contra fun h6 => h3 ⟨h5, h6⟩)
        cases u
        · simp
        · simp [h4]

theorem le_ratio_038 {a b : ℕ} (hb : 0 < b) : (0.38 : ℚ) ≤ ratio a b ↔ 38 * b ≤ 100 * a := by
  have hbq : (0 : ℚ) < b := by exact_mod_cast hb
  unfold ratio
  rw [le_div_iff₀ hbq]
  constructor
  · intro h
    have : (38 : ℚ) * b ≤ 100 * a := by norm_num at h; linarith
    exact_mod_cast this
  · intro h
    have : (38 : ℚ) * b ≤ 100 * a := by exact_mod_cast h
    norm_num
    linarith

theorem lt_ratio_038 {a b : ℕ} (hab : a ≤ b) : (0.38 : ℚ) < ratio a b ↔ 38 * b < 100 * a := by
  rcases Nat.eq_zero_or_pos b with h0 | hb
  · subst h0
    have : a = 0 := by omega
    subst this
    norm_num [ratio]
  have hbq : (0 : ℚ) < b := by exact_mod_cast hb
  unfold ratio
  rw [lt_div_iff₀ hbq]
  constructor
  · intro h
    have : (38 : ℚ) * b < 100 * a := by norm_num at h; linarith
    exact_mod_cast this
  · intro h
    have : (38 : ℚ) * b < 100 * a := by exact_mod_cast h
    norm_num
    linarith

theorem lt_ratio_01 {a b : ℕ} (hab : a ≤ b) : (0.1 : ℚ) < ratio a b ↔ b < 10 * a := by
  rcases Nat.eq_zero_or_pos b with h0 | hb
  · subst h0
    have : a = 0 := by omega
    subst this
    norm_num [ratio]
  have hbq : (0 : ℚ) < b := by exact_mod_cast hb
  unfold ratio
  rw [lt_div_iff₀ hbq]
  constructor
  · intro h
    have : (b : ℚ) < 10 * a := by norm_num at h; linarith
    exact_mod_cast this
  · intro h
    have : (b : ℚ) < 10 * a := by exact_mod_cast h
    norm_num
    linarith

theorem ratio_lt_038 {a b : ℕ} (hb : 0 < b) : ratio a b < (0.38 : ℚ) ↔ 100 * a < 38 * b := by
  rw [← not_le, le_ratio_038 hb]
  omega

theorem englishCount_le (s : Str) : englishCount s ≤ s.length :=
  List.length_filter_le _ _

theorem lookup_none_of_not_has {charset : Str} (h : CharsetLangMap.lookup charset = none) :
    ¬(charset ≠ [] ∧ mapHas CharsetLangMap charset = true) := by
  rintro ⟨_, h2⟩
  simp [mapHas, h] at h2

theorem lookup_none_of_utf {charset : Str} (h : HasPrefix charset "UTF".toList = true) :
    CharsetLangMap.lookup charset = none := by
  have hhead : charset.head? = some 'U' := by
    rcases charset with _ | ⟨c, t⟩
    · exact absurd h (by decide)
    · have hc : ('U' == c) = true := by
        have := h
        simp only [HasPrefix] at this
        change (('U' :: 'T' :: 'F' :: []).isPrefixOf (c :: t)) = true at this
        simp only [List.isPrefixOf, Bool.and_eq_true] at this
        exact this.1
      simp only [List.head?]
      rw [eq_of_beq hc]
  have hkeys : ∀ p ∈ CharsetLangMap, p.1.head? ≠ some 'U' := by decide
  rw [List.lookup_eq_none_iff]
  intro p hp
  simp only [bne_iff_ne, ne_eq]
  intro heq
  exact hkeys p hp (by rw [← heq]; exact hhead)

theorem LangFromHtml_congr {doc doc2 : Document} (h : doc2.Attr = doc.Attr) :
    LangFromHtml doc2 = LangFromHtml doc := by
  unfold LangFromHtml
  rw [h]

theorem LangFromUtf8Body_pos (E : Env) (doc : Document) (list : Bool) :
    (LangFromUtf8Body E doc list).2 = LangPosBody ∨ (LangFromUtf8Body E doc list).2 = LangPosLingua
      ∨ (LangFromUtf8Body E doc list).2 = [] := by
  rw [LangFromUtf8Body_eq]
  split_ifs
  · exact Or.inl rfl
  · exact Or.inl rfl
  · cases E.DetectLanguageOf linguaLatinLanguages (bodySample E doc list)
    · exact Or.inl rfl
    · exact Or.inr (Or.inl rfl)
  · exact Or.inl rfl
  · cases E.DetectLanguageOf linguaLanguages (bodySample E doc list)
    · exact Or.inr (Or.inr rfl)
    · exact Or.inr (Or.inl rfl)

theorem normalizeSample_nil (E : Env) : normalizeSample E [] = [] := rfl

theorem bodyTextForLang_few_anchors (doc : Document) (h : doc.Size "a".toList < 16) :
    bodyTextForLang doc true = [] := by
  unfold bodyTextForLang
  simp only [Id.run, pure, bind]
  have h16 : ¬doc.Size "a".toList ≥ 16 := by omega
  simp only [h16, ↓reduceIte]

theorem LangFromUtf8Body_nil (E : Env) (doc : Document) (list : Bool)
    (hs : bodySample E doc list = []) (hd : E.DetectLanguageOf linguaLanguages [] = none) :
    LangFromUtf8Body E doc list = ([], []) := by
  rw [LangFromUtf8Body_eq, hs]
  simp [hanCount, englishCount, hd]

theorem LangFromUtf8Body_low_han (E : Env) (doc : Document) (list : Bool)
    (h : ¬(0 < (bodySample E doc list).length ∧
      38 * (bodySample E doc list).length ≤ 100 * hanCount E (bodySample E doc list))) :
    LangFromUtf8Body E doc list = ("en".toList, LangPosBody)
      ∨ (∃ l : Language, LangFromUtf8Body E doc list = (linguaCode l, LangPosLingua))
      ∨ LangFromUtf8Body E doc list = ([], []) := by
  rw [LangFromUtf8Body_eq, if_neg h]
  split_ifs
  · cases E.DetectLanguageOf linguaLatinLanguages (bodySample E doc list) with
    | none => exact Or.inl rfl
    | some l => exact Or.inr (Or.inl ⟨l, rfl⟩)
  · exact Or.inl rfl
  · cases E.DetectLanguageOf linguaLanguages (bodySample E doc list) with
    | none => exact Or.inr (Or.inr rfl)
    | some l => exact Or.inr (Or.inl ⟨l, rfl⟩)

theorem length_pos_of_ne_nil {s : Str} (h : s ≠ []) : 0 < s.length :=
  List.length_pos.mpr h

theorem latin_branch (E : Env) (doc : Document) (list : Bool)
    (hhan : hanRatio E (bodySample E doc list) < 0.38)
    (heng : (0.38 : ℚ) < englishRatio (bodySample E doc list)) :
    LangFromUtf8Body E doc list =
      if 3 < latinCount (bodySample E doc list) then
        match E.DetectLanguageOf linguaLatinLanguages (bodySample E doc list) with
        | some l => (linguaCode l, LangPosLingua)
        | none => ("en".toList, LangPosBody)
      else ("en".toList, LangPosBody) := by
  have he := (lt_ratio_038 (englishCount_le _)).mp heng
  have hN : 0 < (bodySample E doc list).length := by
    have := englishCount_le (bodySample E doc list)
    omega
  have hh := (ratio_lt_038 hN).mp hhan
  rw [LangFromUtf8Body_eq, if_neg (by omega), if_pos he]

/-! ## The pattern of declared languages -/

theorem mem_foldAZ (c : Char) : c ∈ foldAZ ↔ tagLetter c = true := by
  constructor
  · intro h
    have : ∀ d ∈ foldAZ, tagLetter d = true := by decide
    exact this c h
  · intro h
    rw [← Char.ofNat_toNat c]
    simp only [tagLetter, Bool.or_eq_true, Bool.and_eq_true, decide_eq_true_eq, beq_iff_eq] at h
    generalize c.toNat = n at h
    have e1 : 'a'.toNat = 97 := by decide
    have e2 : 'z'.toNat = 122 := by decide
    have e3 : 'A'.toNat = 65 := by decide
    have e4 : 'Z'.toNat = 90 := by decide
    rw [e1, e2, e3, e4] at h
    rcases h with ((⟨h1, h2⟩ | ⟨h1, h2⟩) | h) | h
    · interval_cases n <;> decide
    · interval_cases n <;> decide
    · subst h; decide
    · subst h; decide

theorem mem_charClass (cs : List Char) (x : Str) :
    x ∈ (charClass cs).matches' ↔ ∃ c ∈ cs, x = [c] := by
  induction cs with
  | nil =>
    simp only [charClass, List.foldr_nil, List.not_mem_nil, false_and, exists_false, iff_false]
    exact Language.not_mem_zero x
  | cons d t ih =>
    have e : charClass (d :: t) = RegularExpression.char d + charClass t := rfl
    rw [e, RegularExpression.matches'_add, Language.mem_add, ih, RegularExpression.matches'_char]
    constructor
    · rintro (h | ⟨c, hc, rfl⟩)
      · exact ⟨d, List.mem_cons_self _ _, h⟩
      · exact ⟨c, List.mem_cons_of_mem _ hc, rfl⟩
    · rintro ⟨c, hc, rfl⟩
      rcases List.mem_cons.mp hc with rfl | hc
      · exact Or.inl rfl
      · exact Or.inr ⟨c, hc, rfl⟩

theorem mem_star_charClass (cs : List Char) (x : Str) :
    x ∈ (RegularExpression.star (charClass cs)).matches' ↔ ∀ c ∈ x, c ∈ cs := by
  rw [RegularExpression.matches'_star, Language.mem_kstar]
  constructor
  · rintro ⟨L, rfl, hL⟩ c hc
    obtain ⟨y, hy, hcy⟩ := List.mem_flatten.mp hc
    obtain ⟨d, hd, rfl⟩ := (mem_charClass cs y).mp (hL y hy)
    rw [List.mem_singleton.mp hcy]
    exact hd
  · intro h
    refine ⟨x.map (fun c => [c]), ?_, ?_⟩
    · induction x with
      | nil => rfl
      | cons a t ih =>
        simp only [List.map_cons, List.flatten_cons, List.singleton_append, List.cons.injEq,
          true_and]
        exact ih (fun c hc => h c (List.mem_cons_of_mem _ hc))
    · intro y hy
      obtain ⟨c, hc, rfl⟩ := List.mem_map.mp hy
      exact (mem_charClass cs _).mpr ⟨c, h c hc, rfl⟩

theorem MatchString_RegexLangHtml (v : Str) :
    MatchString RegexLangHtml v = validLangTag v := by
  rw [Bool.eq_iff_iff]
  unfold MatchString
  rw [RegularExpression.rmatch_iff_matches']
  unfold RegexLangHtml
  simp only [RegularExpression.matches'_add, RegularExpression.matches'_mul, Language.mem_add,
    Language.mem_mul, mem_charClass, mem_star_charClass, RegularExpression.matches'_char,
    mem_foldAZ]
  constructor
  · rintro (⟨_, ⟨a, ha, rfl⟩, _, ⟨b, hb, rfl⟩, rfl⟩ | h)
    · simp [validLangTag, ha, hb]
    · obtain ⟨p, ⟨q, hq, m, hm, rfl⟩, r, hr, rfl⟩ := h
      obtain ⟨_, ⟨a, ha, rfl⟩, _, ⟨b, hb, rfl⟩, rfl⟩ := hq
      obtain ⟨_, ⟨c, hc, rfl⟩, t, ht, rfl⟩ := hr
      have hm2 : m = ['-'] := hm
      subst hm2
      simp only [List.singleton_append, List.cons_append, List.nil_append, validLangTag]
      simp [ha, hb, hc]
      exact ht
  · intro h
    rcases v with _ | ⟨a, _ | ⟨b, _ | ⟨c, sub⟩⟩⟩
    · simp [validLangTag] at h
    · simp [validLangTag] at h
    · simp only [validLangTag, Bool.and_eq_true] at h
      exact Or.inl ⟨[a], ⟨a, h.1, rfl⟩, [b], ⟨b, h.2, rfl⟩, rfl⟩
    · simp only [validLangTag, Bool.and_eq_true, beq_iff_eq, Bool.not_eq_true',
        List.isEmpty_eq_false, List.all_eq_true] at h
      obtain ⟨⟨⟨⟨ha, hb⟩, hc⟩, hne⟩, hall⟩ := h
      subst hc
      rcases sub with _ | ⟨d, t⟩
      · simp at hne
      · right
        refine ⟨[a, b, '-'], ⟨[a, b], ⟨[a], ⟨a, ha, rfl⟩, [b], ⟨b, hb, rfl⟩, rfl⟩, ['-'], rfl, rfl⟩,
          d :: t, ⟨[d], ⟨d, hall d (List.mem_cons_self _ _), rfl⟩, t,
            fun c hc => hall c (List.mem_cons_of_mem _ hc), rfl⟩, rfl⟩

theorem LangFromHtml_eq (doc : Document) : LangFromHtml doc = declaredLanguage doc := by
  unfold LangFromHtml declaredLanguage langCandidates
  simp only [Id.run, pure, bind, metaLangSelectors, MatchString_RegexLangHtml, SubString,
    List.drop_zero]
  simp only [List.map, List.forIn_cons, List.forIn_nil, pure, bind]
  generalize doc.Attr "html".toList "lang".toList = o1
  generalize doc.Attr "html".toList "xml:lang".toList = o2
  generalize doc.Attr "meta[http-equiv='content-language' i]".toList "content".toList = o3
  generalize doc.Attr "meta[name='lang' i]".toList "content".toList = o4
  rcases o1 with _ | v1 <;> rcases o2 with _ | v2 <;> rcases o3 with _ | v3 <;>
    rcases o4 with _ | v4 <;>
    simp only [List.filterMap, Option.map, List.find?]
  all_goals try cases validLangTag (TrimSpace v1)
  all_goals try cases validLangTag (TrimSpace v2)
  all_goals try cases validLangTag (TrimSpace v3)
  all_goals try cases validLangTag (TrimSpace v4)
  all_goals rfl

/-! ## The shape of the results -/

theorem lookup_mem {m : List (Str × Str)} {k v : Str} (h : m.lookup k = some v) :
    (k, v) ∈ m := by
  obtain ⟨l₁, l₂, rfl, _⟩ := List.lookup_eq_some_iff.mp h
  simp

theorem LangFromHtml_shape (doc : Document) :
    LangFromHtml doc = []
      ∨ ∃ a b, LangFromHtml doc = [a, b] ∧ tagLetter a = true ∧ tagLetter b = true := by
  rw [LangFromHtml_eq]
  unfold declaredLanguage
  cases hfind : ((langCandidates doc).filterMap (fun v => v.map TrimSpace)).find? validLangTag with
  | none => exact Or.inl rfl
  | some v =>
    right
    have hv : validLangTag v = true := List.find?_some hfind
    rcases v with _ | ⟨a, _ | ⟨b, _ | ⟨c, sub⟩⟩⟩
    · simp [validLangTag] at hv
    · simp [validLangTag] at hv
    · simp only [validLangTag, Bool.and_eq_true] at hv
      exact ⟨a, b, rfl, hv.1, hv.2⟩
    · simp only [validLangTag, Bool.and_eq_true] at hv
      exact ⟨a, b, rfl, hv.1.1.1.1, hv.1.1.1.2⟩

theorem LangFromTitle_cases (E : Env) (doc : Document) (list : Bool) :
    LangFromTitle E doc list = ("ja".toList, LangPosTd)
      ∨ LangFromTitle E doc list = ("zh".toList, LangPosTd)
      ∨ LangFromTitle E doc list = ([], []) := by
  rw [LangFromTitle_eq]
  split_ifs
  · exact Or.inl rfl
  · exact Or.inr (Or.inl rfl)
  · exact Or.inr (Or.inr rfl)

theorem LangFromUtf8Body_cases (E : Env) (doc : Document) (list : Bool) :
    LangFromUtf8Body E doc list = ("ja".toList, LangPosBody)
      ∨ LangFromUtf8Body E doc list = ("zh".toList, LangPosBody)
      ∨ LangFromUtf8Body E doc list = ("en".toList, LangPosBody)
      ∨ (∃ l : Language, LangFromUtf8Body E doc list = (linguaCode l, LangPosLingua))
      ∨ LangFromUtf8Body E doc list = ([], []) := by
  by_cases h : 0 < (bodySample E doc list).length ∧
      38 * (bodySample E doc list).length ≤ 100 * hanCount E (bodySample E doc list)
  · rw [LangFromUtf8Body_eq, if_pos h]
    split_ifs
    · exact Or.inl rfl
    · exact Or.inr (Or.inl rfl)
  · rcases LangFromUtf8Body_low_han E doc list h with h1 | h1 | h1
    · exact Or.inr (Or.inr (Or.inl h1))
    · exact Or.inr (Or.inr (Or.inr (Or.inl h1)))
    · exact Or.inr (Or.inr (Or.inr (Or.inr h1)))

/-- The results `Lang` can return, by the step of the cascade that returns. -/
theorem Lang_cases (E : Env) (doc : Document) (charset : Str) (list : Bool) :
    (∃ v, (charset, v) ∈ CharsetLangMap ∧ Lang E doc charset list = ⟨v, LangPosCharset⟩)
      ∨ Lang E doc charset list = ⟨"ja".toList, LangPosTd⟩
      ∨ Lang E doc charset list = ⟨"zh".toList, LangPosTd⟩
      ∨ (∃ a b, tagLetter a = true ∧ tagLetter b = true ∧ LangFromHtml doc = [a, b]
          ∧ Lang E doc charset list = ⟨[a, b], LangPosHtmlTag⟩)
      ∨ Lang E doc charset list = ⟨"ja".toList, LangPosBody⟩
      ∨ Lang E doc charset list = ⟨"zh".toList, LangPosBody⟩
      ∨ Lang E doc charset list = ⟨"en".toList, LangPosBody⟩
      ∨ (∃ l : Language, Lang E doc charset list = ⟨linguaCode l, LangPosLingua⟩)
      ∨ Lang E doc charset list = ⟨[], []⟩ := by
  rw [Lang_eq]
  by_cases h1 : charset ≠ [] ∧ mapHas CharsetLangMap charset = true
  · rw [if_pos h1]
    left
    cases hl : CharsetLangMap.lookup charset with
    | none => simp [mapHas, hl] at h1
    | some v => exact ⟨v, lookup_mem hl, by simp [mapGet, hl]⟩
  rw [if_neg h1]
  right
  by_cases h2 : (LangFromTitle E doc list).1 ≠ []
  · rw [if_pos h2]
    rcases LangFromTitle_cases E doc list with h | h | h
    · rw [h]; exact Or.inl rfl
    · rw [h]; exact Or.inr (Or.inl rfl)
    · rw [h] at h2; exact absurd rfl h2
  rw [if_neg h2]
  right; right
  by_cases h3 : LangFromHtml doc ≠ [] ∧ LangFromHtml doc ≠ "en".toList
  · rw [if_pos h3]
    left
    rcases LangFromHtml_shape doc with h | ⟨a, b, h, ha, hb⟩
    · exact absurd h h3.1
    · exact ⟨a, b, ha, hb, h, by rw [h]⟩
  rw [if_neg h3]
  right
  by_cases h4 : HasPrefix charset "UTF".toList = true ∧ (LangFromUtf8Body E doc list).1 ≠ []
  · rw [if_pos h4]
    rcases LangFromUtf8Body_cases E doc list with h | h | h | ⟨l, h⟩ | h
    · rw [h]; exact Or.inl rfl
    · rw [h]; exact Or.inr (Or.inl rfl)
    · rw [h]; exact Or.inr (Or.inr (Or.inl rfl))
    · rw [h]; exact Or.inr (Or.inr (Or.inr (Or.inl ⟨l, rfl⟩)))
    · rw [h] at h4; exact absurd rfl h4.2
  · rw [if_neg h4]
    exact Or.inr (Or.inr (Or.inr (Or.inr rfl)))

theorem charset_values :
    ∀ p ∈ CharsetLangMap, p.2 ≠ [] ∧ p.2.length = 2 ∧ lowerCase p.2 = true ∧ p.2 ∈ knownCodes := by
  decide

theorem linguaCode_values (l : Language) :
    linguaCode l ≠ [] ∧ (linguaCode l).length = 2 ∧ lowerCase (linguaCode l) = true
      ∧ linguaCode l ∈ knownCodes := by
  cases l <;> decide

/-! ## Ratios, trimming and checked quotients -/

theorem lt_ratio_01_pos {a b : ℕ} (hb : 0 < b) : (0.1 : ℚ) < ratio a b ↔ b < 10 * a := by
  have hbq : (0 : ℚ) < b := by exact_mod_cast hb
  unfold ratio
  rw [lt_div_iff₀ hbq]
  constructor
  · intro h
    have : (b : ℚ) < 10 * a := by norm_num at h; linarith
    exact_mod_cast this
  · intro h
    have : (b : ℚ) < 10 * a := by exact_mod_cast h
    norm_num
    linarith

theorem ratio_zero_right (a : ℕ) : ratio a 0 = 0 := by
  simp [ratio]

theorem han_dominant {E : Env} {s : Str} (h : (0.38 : ℚ) ≤ hanRatio E s) :
    0 < s.length ∧ 38 * s.length ≤ 100 * hanCount E s := by
  have hN : 0 < s.length := by
    rcases Nat.eq_zero_or_pos s.length with h0 | hpos
    · unfold hanRatio at h
      rw [h0, ratio_zero_right] at h
      norm_num at h
    · exact hpos
  exact ⟨hN, (le_ratio_038 hN).mp h⟩

theorem not_han_dominant {E : Env} {s : Str} (h : hanRatio E s < 0.38) :
    ¬(0 < s.length ∧ 38 * s.length ≤ 100 * hanCount E s) := by
  rintro ⟨hN, h2⟩
  have := (ratio_lt_038 hN).mp h
  omega

theorem TrimSpace_head (s : Str) (c : Char) (h : (TrimSpace s).head? = some c) :
    IsSpace c = false := by
  unfold TrimSpace at h
  have hpre : (s.dropWhile IsSpace).rdropWhile IsSpace <+: s.dropWhile IsSpace :=
    List.rdropWhile_prefix _ _
  obtain ⟨t, ht⟩ := hpre
  have hd := List.head?_dropWhile_not IsSpace s
  rcases hr : (s.dropWhile IsSpace).rdropWhile IsSpace with _ | ⟨x, r⟩
  · rw [hr] at h; cases h
  · rw [hr] at h ht
    simp only [List.head?_cons, Option.some.injEq] at h
    subst h
    rw [← ht] at hd
    simpa using hd

theorem TrimSpace_last (s : Str) (c : Char) (h : (TrimSpace s).getLast? = some c) :
    IsSpace c = false := by
  unfold TrimSpace at h
  have hne : (s.dropWhile IsSpace).rdropWhile IsSpace ≠ [] := by
    intro h0; rw [h0] at h; cases h
  have hl := List.rdropWhile_last_not (p := IsSpace) (l := s.dropWhile IsSpace) hne
  rw [List.getLast?_eq_getLast _ hne] at h
  simp only [Option.some.injEq] at h
  rw [h] at hl
  simpa using hl

theorem checkedDiv_pos {a b : ℕ} (hb : 0 < b) : checkedDiv a b = some (float64Div a b) := by
  unfold checkedDiv
  rw [if_neg (by omega)]

theorem LangFromTitleChecked_eq (E : Env) (doc : Document) (list : Bool) :
    LangFromTitleChecked E doc list = some (LangFromTitle E doc list) := by
  unfold LangFromTitleChecked LangFromTitle
  simp only [Id.run, pure, bind, normalizeSample_fold, Option.some_bind]
  by_cases hja : FindAllString (jaClass E) (normalizeSample E (bodyTextForLang doc list)) = []
  · simp only [hja, ne_eq, not_true_eq_false, if_false]
    split_ifs <;> rfl
  · rw [checkedDiv_pos (filter_pos_of_ne_nil hja)]
    simp only [Option.some_bind]
    split_ifs <;> rfl

theorem LangFromUtf8BodyChecked_eq (E : Env) (doc : Document) (list : Bool) :
    LangFromUtf8BodyChecked E doc list = some (LangFromUtf8Body E doc list) := by
  unfold LangFromUtf8BodyChecked LangFromUtf8Body
  simp only [Id.run, pure, bind, normalizeSample_fold, Option.some_bind]
  have hN : ∀ {p : Char → Bool},
      FindAllString p (normalizeSample E (bodyTextForLang doc list)) ≠ [] →
      0 < (normalizeSample E (bodyTextForLang doc list)).length :=
    fun h => filter_pos_of_ne_nil h
  cases E.DetectLanguageOf linguaLatinLanguages (normalizeSample E (bodyTextForLang doc list)) <;>
    cases E.DetectLanguageOf linguaLanguages (normalizeSample E (bodyTextForLang doc list)) <;>
    simp only []
  all_goals
    by_cases hh : FindAllString E.Han (normalizeSample E (bodyTextForLang doc list)) = []
    · rw [if_neg (not_not.mpr hh), if_neg (not_not.mpr hh)]
      by_cases he : FindAllString englishClass (normalizeSample E (bodyTextForLang doc list)) = []
      · rw [if_neg (not_not.mpr he), if_neg (not_not.mpr he)]
      · rw [if_pos he, if_pos he, checkedDiv_pos (hN he), Option.some_bind]
        split_ifs <;> rfl
    · rw [if_pos hh, if_pos hh, checkedDiv_pos (hN hh), Option.some_bind]
      by_cases hge : (float64Div
          (FindAllString E.Han (normalizeSample E (bodyTextForLang doc list))).length
          (normalizeSample E (bodyTextForLang doc list)).length).ge 0.38 = true
      · rw [if_pos hge, if_pos hge]
        by_cases hja : FindAllString (jaClass E) (normalizeSample E (bodyTextForLang doc list))
            = []
        · rw [if_neg (not_not.mpr hja), if_neg (not_not.mpr hja)]
        · rw [if_pos hja, if_pos hja, checkedDiv_pos (List.length_pos.mpr hh), Option.some_bind]
          split_ifs <;> rfl
      · rw [if_neg hge, if_neg hge]
        by_cases he : FindAllString englishClass (normalizeSample E (bodyTextForLang doc list)) = []
        · rw [if_neg (not_not.mpr he), if_neg (not_not.mpr he)]
        · rw [if_pos he, if_pos he, checkedDiv_pos (hN he), Option.some_bind]
          split_ifs <;> rfl

/-! ## The claims -/

/-- C1. Encoding priority: when `charset` is a key of `CharsetLangMap`, with value `lang`,
`Lang` returns `lang` with source "charset", for every environment (title extractor, tables,
detector), every page and both values of `list`; so "GBK" gives ("zh", "charset"). -/
theorem C1_charset_priority (E : Env) (doc : Document) (charset lang : Str) (list : Bool)
    (hkey : CharsetLangMap.lookup charset = some lang) :
    Lang E doc charset list = ⟨lang, "charset".toList⟩
      ∧ Lang E doc "GBK".toList list = ⟨"zh".toList, "charset".toList⟩ := by
  have hG : Lang E doc "GBK".toList list = ⟨"zh".toList, "charset".toList⟩ := by
    rw [Lang_eq, if_pos (by decide)]
    rfl
  refine ⟨?_, hG⟩
  have hne : charset ≠ [] := by
    rintro rfl
    have h0 : CharsetLangMap.lookup ([] : Str) = none := by decide
    rw [h0] at hkey
    cases hkey
  rw [Lang_eq, if_pos ⟨hne, by simp [mapHas, hkey]⟩]
  simp [mapGet, hkey, LangPosCharset]

/-- Witness of C1: the Shift_JIS key, on a page that declares Chinese. -/
theorem C1_charset_priority_witness :
    Lang (exampleEnv noAnswer) japaneseListing "SHIFT_JIS".toList true
        = ⟨"ja".toList, "charset".toList⟩
      ∧ Lang (exampleEnv noAnswer) japaneseListing "GBK".toList true
        = ⟨"zh".toList, "charset".toList⟩ :=
  C1_charset_priority (exampleEnv noAnswer) japaneseListing "SHIFT_JIS".toList "ja".toList true
    (by decide)

/-- C2. Title override in listing mode: with `list = true`, a charset that is not a key of the
encoding table, a cleaned title of at least 2 Han characters and a normalized body sample whose
ratio of Hiragana/Katakana characters to characters is above 0.10, `Lang` returns ("ja", "td"),
whatever the attributes of the page declare. -/
theorem C2_title_override (E : Env) (doc : Document) (charset : Str)
    (hcs : CharsetLangMap.lookup charset = none)
    (htitle : 2 ≤ hanCount E (cleanTitle E doc))
    (hkana : (0.10 : ℚ) < kanaRatio E (bodySample E doc true)) :
    Lang E doc charset true = ⟨"ja".toList, LangPosTd⟩ := by
  have hk : (bodySample E doc true).length < 10 * kanaCount E (bodySample E doc true) := by
    have h : (0.1 : ℚ) < ratio (kanaCount E (bodySample E doc true))
        (bodySample E doc true).length := by
      have e : (0.10 : ℚ) = 0.1 := by norm_num
      rw [← e]; exact hkana
    exact (lt_ratio_01 (kanaCount_le E _)).mp h
  have ht : LangFromTitle E doc true = ("ja".toList, LangPosTd) := by
    rw [LangFromTitle_eq, if_pos ⟨rfl, htitle⟩, if_pos hk]
  rw [Lang_eq, if_neg (lookup_none_of_not_has hcs), ht, if_pos (by decide)]

/-- Witness of C2: a listing page that declares `lang="zh"`, titled with six Han characters,
whose sixteen anchors are in Katakana, under UTF-8. -/
theorem C2_title_override_witness :
    LangFromHtml japaneseListing = "zh".toList
      ∧ Lang (exampleEnv noAnswer) japaneseListing "UTF-8".toList true
        = ⟨"ja".toList, LangPosTd⟩ :=
  ⟨by decide,
    C2_title_override (exampleEnv noAnswer) japaneseListing "UTF-8".toList (by decide) (by decide)
      (by
        have e : (0.10 : ℚ) = 0.1 := by norm_num
        rw [e]
        exact (lt_ratio_01 (kanaCount_le _ _)).mpr (by decide))⟩

/-- C3. Trusted markup: when the charset is not a key of the encoding table and the Title
Disambiguator yields no result, a non-empty code `L` other than "en" returned by `LangFromHtml`
is the result of `Lang`, with source "html"; the same holds on every page with the same
attributes and in every environment (whatever the texts of the page and the detector) as long
as the title yields no result there. -/
theorem C3_trusted_markup (E : Env) (doc : Document) (charset : Str) (list : Bool) (L : Str)
    (hcs : CharsetLangMap.lookup charset = none)
    (htitle : (LangFromTitle E doc list).1 = [])
    (hL : LangFromHtml doc = L) (hne : L ≠ []) (hen : L ≠ "en".toList) :
    Lang E doc charset list = ⟨L, "html".toList⟩
      ∧ ∀ (E2 : Env) (doc2 : Document), doc2.Attr = doc.Attr →
          (LangFromTitle E2 doc2 list).1 = [] →
          Lang E2 doc2 charset list = ⟨L, "html".toList⟩ := by
  have key : ∀ (E2 : Env) (doc2 : Document), LangFromHtml doc2 = L →
      (LangFromTitle E2 doc2 list).1 = [] → Lang E2 doc2 charset list = ⟨L, "html".toList⟩ := by
    intro E2 doc2 h2 ht2
    rw [Lang_eq, if_neg (lookup_none_of_not_has hcs), if_neg (not_not.mpr ht2), h2,
      if_pos ⟨hne, hen⟩]
    rfl
  exact ⟨key E doc hL htitle, fun E2 doc2 hA ht2 => key E2 doc2 ((LangFromHtml_congr hA).trans hL) ht2⟩

/-- Witness of C3: the page that declares `lang="zh"`, read as a content page in Latin-1. -/
theorem C3_trusted_markup_witness :
    Lang (exampleEnv noAnswer) japaneseListing "ISO-8859-1".toList false
        = ⟨"zh".toList, "html".toList⟩
      ∧ ∀ (E2 : Env) (doc2 : Document), doc2.Attr = japaneseListing.Attr →
          (LangFromTitle E2 doc2 false).1 = [] →
          Lang E2 doc2 "ISO-8859-1".toList false = ⟨"zh".toList, "html".toList⟩ :=
  C3_trusted_markup (exampleEnv noAnswer) japaneseListing "ISO-8859-1".toList false "zh".toList
    (by decide) (by rw [LangFromTitle_eq]; decide) (by decide) (by decide) (by decide)

/-- C4. Markup default distrust: under a charset that begins with "UTF", when the Title
Disambiguator yields no result and the declared language is empty or exactly "en", the result
of `Lang` is the result of `LangFromUtf8Body` when that has a non-empty language and the empty
result otherwise; its source is never the markup. -/
theorem C4_markup_distrust (E : Env) (doc : Document) (charset : Str) (list : Bool)
    (hutf : HasPrefix charset "UTF".toList = true)
    (htitle : (LangFromTitle E doc list).1 = [])
    (hmark : LangFromHtml doc = [] ∨ LangFromHtml doc = "en".toList) :
    Lang E doc charset list =
        (if (LangFromUtf8Body E doc list).1 ≠ [] then
          ⟨(LangFromUtf8Body E doc list).1, (LangFromUtf8Body E doc list).2⟩
        else ⟨[], []⟩)
      ∧ (Lang E doc charset list).LangPos ≠ LangPosHtmlTag := by
  have hm : ¬(LangFromHtml doc ≠ [] ∧ LangFromHtml doc ≠ "en".toList) := by
    rintro ⟨h1, h2⟩
    rcases hmark with h | h
    · exact h1 h
    · exact h2 h
  have e : Lang E doc charset list =
      (if (LangFromUtf8Body E doc list).1 ≠ [] then
        ⟨(LangFromUtf8Body E doc list).1, (LangFromUtf8Body E doc list).2⟩
      else ⟨[], []⟩) := by
    rw [Lang_eq, if_neg (lookup_none_of_not_has (lookup_none_of_utf hutf)),
      if_neg (not_not.mpr htitle), if_neg hm]
    simp only [hutf, true_and]
  refine ⟨e, ?_⟩
  rw [e]
  split_ifs
  · rcases LangFromUtf8Body_pos E doc list with h | h | h <;> (simp only [h]; decide)
  · decide

/-- Witness of C4: the page that declares `lang="en"` with accented Latin text, under UTF-8. -/
theorem C4_markup_distrust_witness :
    Lang (exampleEnv answerFrench) frenchPage "UTF-8".toList false =
        (if (LangFromUtf8Body (exampleEnv answerFrench) frenchPage false).1 ≠ [] then
          ⟨(LangFromUtf8Body (exampleEnv answerFrench) frenchPage false).1,
            (LangFromUtf8Body (exampleEnv answerFrench) frenchPage false).2⟩
        else ⟨[], []⟩)
      ∧ (Lang (exampleEnv answerFrench) frenchPage "UTF-8".toList false).LangPos
          ≠ LangPosHtmlTag :=
  C4_markup_distrust (exampleEnv answerFrench) frenchPage "UTF-8".toList false (by decide)
    (by rw [LangFromTitle_eq]; decide) (by decide)

/-- C5. Undetermined fallthrough: when the charset is not a key of the encoding table and does
not begin with "UTF" (the empty charset included), the Title Disambiguator yields no result
and the declared language is empty or exactly "en", `Lang` returns the empty result. In
particular a listing page with 10 anchors and no such signal yields the empty result, under
any charset outside the table, when the detector has no answer for the empty text. -/
theorem C5_undetermined (E : Env) (doc : Document) (charset : Str) (list : Bool)
    (hcs : CharsetLangMap.lookup charset = none)
    (hutf : HasPrefix charset "UTF".toList = false)
    (htitle : (LangFromTitle E doc list).1 = [])
    (hmark : LangFromHtml doc = [] ∨ LangFromHtml doc = "en".toList) :
    Lang E doc charset list = ⟨[], []⟩
      ∧ ∀ (E2 : Env) (doc2 : Document) (charset2 : Str),
          CharsetLangMap.lookup charset2 = none →
          doc2.Size "a".toList = 10 →
          (LangFromTitle E2 doc2 true).1 = [] →
          (LangFromHtml doc2 = [] ∨ LangFromHtml doc2 = "en".toList) →
          E2.DetectLanguageOf linguaLanguages [] = none →
          Lang E2 doc2 charset2 true = ⟨[], []⟩ := by
  have hm : ∀ doc2 : Document, (LangFromHtml doc2 = [] ∨ LangFromHtml doc2 = "en".toList) →
      ¬(LangFromHtml doc2 ≠ [] ∧ LangFromHtml doc2 ≠ "en".toList) := by
    rintro doc2 hmark2 ⟨h1, h2⟩
    rcases hmark2 with h | h
    · exact h1 h
    · exact h2 h
  constructor
  · rw [Lang_eq, if_neg (lookup_none_of_not_has hcs), if_neg (not_not.mpr htitle),
      if_neg (hm doc hmark),
      if_neg (fun h => by rw [hutf] at h; exact Bool.false_ne_true h.1)]
  · intro E2 doc2 charset2 hcs2 hsize ht2 hmark2 hdet
    have hb : bodySample E2 doc2 true = [] := by
      unfold bodySample
      rw [bodyTextForLang_few_anchors doc2 (by omega)]
      rfl
    rw [Lang_eq, if_neg (lookup_none_of_not_has hcs2), if_neg (not_not.mpr ht2),
      if_neg (hm doc2 hmark2), LangFromUtf8Body_nil E2 doc2 true hb hdet, if_neg (by simp)]

/-- Witness of C5: the listing page with 10 anchors, with the empty charset. -/
theorem C5_undetermined_witness :
    Lang (exampleEnv noAnswer) sparseListing [] true = ⟨[], []⟩
      ∧ ∀ (E2 : Env) (doc2 : Document) (charset2 : Str),
          CharsetLangMap.lookup charset2 = none →
          doc2.Size "a".toList = 10 →
          (LangFromTitle E2 doc2 true).1 = [] →
          (LangFromHtml doc2 = [] ∨ LangFromHtml doc2 = "en".toList) →
          E2.DetectLanguageOf linguaLanguages [] = none →
          Lang E2 doc2 charset2 true = ⟨[], []⟩ :=
  C5_undetermined (exampleEnv noAnswer) sparseListing [] true (by decide) (by decide)
    (by rw [LangFromTitle_eq]; decide) (by decide)

/-! ## Body analysis -/

/-- C6. Han ratio boundary: on a non-empty normalized sample, `LangFromUtf8Body` returns "zh"
or "ja" with source "body" if and only if the Han ratio of the sample is at least 0.38 (the
bound included); below 0.38 the result is that of the Latin or statistical analysis: "en" with
source "body", a detector answer with source "lingua", or nothing. -/
theorem C6_han_boundary (E : Env) (doc : Document) (list : Bool)
    (hne : bodySample E doc list ≠ []) :
    ((LangFromUtf8Body E doc list = ("zh".toList, LangPosBody)
        ∨ LangFromUtf8Body E doc list = ("ja".toList, LangPosBody))
      ↔ (0.38 : ℚ) ≤ hanRatio E (bodySample E doc list))
    ∧ (hanRatio E (bodySample E doc list) < 0.38 →
        LangFromUtf8Body E doc list = ("en".toList, LangPosBody)
          ∨ (∃ l : Language, LangFromUtf8Body E doc list = (linguaCode l, LangPosLingua))
          ∨ LangFromUtf8Body E doc list = ([], [])) := by
  have hN := length_pos_of_ne_nil hne
  have hlow : ¬(38 * (bodySample E doc list).length ≤ 100 * hanCount E (bodySample E doc list)) →
      LangFromUtf8Body E doc list = ("en".toList, LangPosBody)
        ∨ (∃ l : Language, LangFromUtf8Body E doc list = (linguaCode l, LangPosLingua))
        ∨ LangFromUtf8Body E doc list = ([], []) :=
    fun h => LangFromUtf8Body_low_han E doc list (fun h2 => h h2.2)
  refine ⟨⟨?_, ?_⟩, ?_⟩
  · intro hcjk
    by_contra hr
    have hr2 : ¬(38 * (bodySample E doc list).length
        ≤ 100 * hanCount E (bodySample E doc list)) :=
      fun h => hr ((le_ratio_038 hN).mpr h)
    rcases hlow hr2 with h | ⟨l, h⟩ | h
    · rw [h] at hcjk
      rcases hcjk with h2 | h2
      · have h3 : "en".toList = "zh".toList := congrArg Prod.fst h2
        exact absurd h3 (by decide)
      · have h3 : "en".toList = "ja".toList := congrArg Prod.fst h2
        exact absurd h3 (by decide)
    · rw [h] at hcjk
      have h3 : LangPosLingua = LangPosBody := by
        rcases hcjk with h2 | h2 <;> exact congrArg Prod.snd h2
      exact absurd h3 (by decide)
    · rw [h] at hcjk
      have h3 : ([] : Str) = LangPosBody := by
        rcases hcjk with h2 | h2 <;> exact congrArg Prod.snd h2
      exact absurd h3 (by decide)
  · intro hr
    have h38 := (le_ratio_038 hN).mp hr
    rw [LangFromUtf8Body_eq, if_pos ⟨hN, h38⟩]
    split_ifs
    · exact Or.inr rfl
    · exact Or.inl rfl
  · intro hr
    exact hlow (by have := (ratio_lt_038 hN).mp hr; omega)

/-- Witness of C6: a sample of 50 characters, 19 of them Han. -/
theorem C6_han_boundary_witness :
    ((LangFromUtf8Body (exampleEnv noAnswer) boundaryPage false = ("zh".toList, LangPosBody)
        ∨ LangFromUtf8Body (exampleEnv noAnswer) boundaryPage false = ("ja".toList, LangPosBody))
      ↔ (0.38 : ℚ) ≤ hanRatio (exampleEnv noAnswer)
          (bodySample (exampleEnv noAnswer) boundaryPage false))
    ∧ (hanRatio (exampleEnv noAnswer) (bodySample (exampleEnv noAnswer) boundaryPage false) < 0.38 →
        LangFromUtf8Body (exampleEnv noAnswer) boundaryPage false = ("en".toList, LangPosBody)
          ∨ (∃ l : Language, LangFromUtf8Body (exampleEnv noAnswer) boundaryPage false
              = (linguaCode l, LangPosLingua))
          ∨ LangFromUtf8Body (exampleEnv noAnswer) boundaryPage false = ([], [])) :=
  C6_han_boundary (exampleEnv noAnswer) boundaryPage false (by decide)

/-- The boundary itself: 19 Han characters out of 50 is a ratio of exactly 0.38, and the
sample is classified Chinese with source "body". -/
theorem han_boundary_example :
    hanRatio (exampleEnv noAnswer) (bodySample (exampleEnv noAnswer) boundaryPage false) = 0.38
      ∧ LangFromUtf8Body (exampleEnv noAnswer) boundaryPage false
        = ("zh".toList, LangPosBody) := by
  have h1 : hanCount (exampleEnv noAnswer)
      (bodySample (exampleEnv noAnswer) boundaryPage false) = 19 := by decide
  have h2 : (bodySample (exampleEnv noAnswer) boundaryPage false).length = 50 := by decide
  constructor
  · rw [hanRatio, h1, h2]
    norm_num [ratio]
  · rw [LangFromUtf8Body_eq]
    decide

/-- C7. Plain-Latin shortcut: on a normalized sample with a Han ratio below 0.38, a ratio of
letters `a-z`, `A-Z` above 0.38 and at most 3 Latin-1 Supplement code points,
`LangFromUtf8Body` returns ("en", "body"), and it does so with every detector in place of the
one of the environment. -/
theorem C7_plain_latin (E : Env) (doc : Document) (list : Bool)
    (hhan : hanRatio E (bodySample E doc list) < 0.38)
    (heng : (0.38 : ℚ) < englishRatio (bodySample E doc list))
    (hlat : latinCount (bodySample E doc list) ≤ 3) :
    LangFromUtf8Body E doc list = ("en".toList, LangPosBody)
      ∧ ∀ detect : List Language → Str → Option Language,
          LangFromUtf8Body { E with DetectLanguageOf := detect } doc list
            = ("en".toList, LangPosBody) := by
  have key : ∀ E2 : Env, hanRatio E2 (bodySample E2 doc list) < 0.38 →
      (0.38 : ℚ) < englishRatio (bodySample E2 doc list) →
      latinCount (bodySample E2 doc list) ≤ 3 →
      LangFromUtf8Body E2 doc list = ("en".toList, LangPosBody) := by
    intro E2 h1 h2 h3
    rw [latin_branch E2 doc list h1 h2, if_neg (by omega)]
  exact ⟨key E hhan heng hlat, fun detect => key _ hhan heng hlat⟩

/-- Witness of C7: a content page of plain ASCII text. -/
theorem C7_plain_latin_witness :
    LangFromUtf8Body (exampleEnv answerFrench) englishPage false = ("en".toList, LangPosBody)
      ∧ ∀ detect : List Language → Str → Option Language,
          LangFromUtf8Body { exampleEnv answerFrench with DetectLanguageOf := detect }
            englishPage false = ("en".toList, LangPosBody) :=
  C7_plain_latin (exampleEnv answerFrench) englishPage false
    ((ratio_lt_038 (by decide)).mpr (by decide))
    ((lt_ratio_038 (englishCount_le _)).mpr (by decide)) (by decide)

/-- C8, amended. Accented-Latin handoff: on a normalized sample with a Han ratio below 0.38, a
ratio of letters `a-z`, `A-Z` above 0.38 and more than 3 Latin-1 Supplement code points,
`LangFromUtf8Body` returns the answer of the detector for the Latin group with source "lingua"
when the detector is confident, and ("en", "body") when it is not. -/
theorem C8_accented_latin (E : Env) (doc : Document) (list : Bool)
    (hhan : hanRatio E (bodySample E doc list) < 0.38)
    (heng : (0.38 : ℚ) < englishRatio (bodySample E doc list))
    (hlat : 3 < latinCount (bodySample E doc list)) :
    (∀ l : Language,
        E.DetectLanguageOf linguaLatinLanguages (bodySample E doc list) = some l →
        LangFromUtf8Body E doc list = (linguaCode l, LangPosLingua))
      ∧ (E.DetectLanguageOf linguaLatinLanguages (bodySample E doc list) = none →
        LangFromUtf8Body E doc list = ("en".toList, LangPosBody)) := by
  have e := latin_branch E doc list hhan heng
  rw [if_pos hlat] at e
  constructor
  · intro l hl
    rw [e, hl]
  · intro hl
    rw [e, hl]

/-- Witness of C8, amended: the accented page with a detector that answers French, and with
one that has no answer. -/
theorem C8_accented_latin_witness :
    (∀ l : Language,
        (exampleEnv answerFrench).DetectLanguageOf linguaLatinLanguages
          (bodySample (exampleEnv answerFrench) frenchPage false) = some l →
        LangFromUtf8Body (exampleEnv answerFrench) frenchPage false
          = (linguaCode l, LangPosLingua))
      ∧ ((exampleEnv answerFrench).DetectLanguageOf linguaLatinLanguages
          (bodySample (exampleEnv answerFrench) frenchPage false) = none →
        LangFromUtf8Body (exampleEnv answerFrench) frenchPage false
          = ("en".toList, LangPosBody)) :=
  C8_accented_latin (exampleEnv answerFrench) frenchPage false
    ((ratio_lt_038 (by decide)).mpr (by decide))
    ((lt_ratio_038 (englishCount_le _)).mpr (by decide)) (by decide)

/-- Counterexample to C8 as stated: on the accented page (Han ratio 0, letter ratio 6/14,
6 Latin-1 Supplement code points) with a detector that is not confident, the result is
("en", "body"), not the empty language. -/
theorem C8_counterexample :
    hanRatio (exampleEnv noAnswer) (bodySample (exampleEnv noAnswer) frenchPage false) < 0.38
      ∧ (0.38 : ℚ) < englishRatio (bodySample (exampleEnv noAnswer) frenchPage false)
      ∧ 3 < latinCount (bodySample (exampleEnv noAnswer) frenchPage false)
      ∧ (exampleEnv noAnswer).DetectLanguageOf linguaLatinLanguages
          (bodySample (exampleEnv noAnswer) frenchPage false) = none
      ∧ LangFromUtf8Body (exampleEnv noAnswer) frenchPage false = ("en".toList, "body".toList)
      ∧ (LangFromUtf8Body (exampleEnv noAnswer) frenchPage false).1 ≠ [] := by
  have hres : LangFromUtf8Body (exampleEnv noAnswer) frenchPage false
      = ("en".toList, "body".toList) := by
    rw [LangFromUtf8Body_eq]
    decide
  refine ⟨(ratio_lt_038 (by decide)).mpr (by decide),
    (lt_ratio_038 (englishCount_le _)).mpr (by decide), by decide, rfl, hres, ?_⟩
  rw [hres]
  decide

/-! ## The Title Disambiguator -/

/-- C9. Title Disambiguator decision: `LangFromTitle` returns ("", "") whenever `list` is
false or the cleaned title has fewer than 2 Han characters; with `list = true` and at least 2
Han characters in the title it returns ("ja", "td") when the ratio of Hiragana/Katakana
characters to characters of the normalized body sample is above 0.10, and ("zh", "td")
otherwise, in particular when the body sample is empty. -/
theorem C9_title_decision (E : Env) (doc : Document) (list : Bool) :
    ((list = false ∨ hanCount E (cleanTitle E doc) < 2) → LangFromTitle E doc list = ([], []))
      ∧ (list = true → 2 ≤ hanCount E (cleanTitle E doc) →
          LangFromTitle E doc list =
            if (0.10 : ℚ) < kanaRatio E (bodySample E doc true) then ("ja".toList, "td".toList)
            else ("zh".toList, "td".toList))
      ∧ (list = true → 2 ≤ hanCount E (cleanTitle E doc) → bodySample E doc true = [] →
          LangFromTitle E doc list = ("zh".toList, "td".toList)) := by
  have e10 : (0.10 : ℚ) = 0.1 := by norm_num
  have hiff : (0.10 : ℚ) < kanaRatio E (bodySample E doc true) ↔
      (bodySample E doc true).length < 10 * kanaCount E (bodySample E doc true) := by
    rw [e10]
    exact lt_ratio_01 (kanaCount_le E _)
  refine ⟨?_, ?_, ?_⟩
  · intro h
    rw [LangFromTitle_eq, if_neg]
    rintro ⟨h1, h2⟩
    rcases h with h | h
    · rw [h] at h1; cases h1
    · omega
  · intro hl ht
    rw [LangFromTitle_eq, if_pos ⟨hl, ht⟩]
    by_cases hk : (bodySample E doc true).length < 10 * kanaCount E (bodySample E doc true)
    · rw [if_pos hk, if_pos (hiff.mpr hk)]; rfl
    · rw [if_neg hk, if_neg (fun h => hk (hiff.mp h))]; rfl
  · intro hl ht hs
    rw [LangFromTitle_eq, if_pos ⟨hl, ht⟩, hs, if_neg (by simp [kanaCount])]
    rfl

/-! ## The Declared-Language Extractor -/

/-- C10. Declared-Language Extractor: `LangFromHtml` is the extractor of the specification:
among the root element's `lang`, its `xml:lang` and the `content` of each selector of
`metaLangSelectors`, in this order, it returns the first 2 characters of the first value that,
trimmed, is valid, and the empty string when none is; valid, that is matched by
`RegexLangHtml`, means a bare 2-letter code or a 2-letter code followed by a hyphen and a
subtag of letters. -/
theorem C10_declared_language (doc : Document) :
    LangFromHtml doc = declaredLanguage doc
      ∧ (∀ v : Str, MatchString RegexLangHtml v = true ↔
          ((∃ a b, v = [a, b] ∧ tagLetter a = true ∧ tagLetter b = true)
            ∨ (∃ a b sub, v = a :: b :: '-' :: sub ∧ tagLetter a = true ∧ tagLetter b = true
                ∧ sub ≠ [] ∧ ∀ c ∈ sub, tagLetter c = true)))
      ∧ ((∀ x : Str, some x ∈ langCandidates doc →
            MatchString RegexLangHtml (TrimSpace x) = false) →
          LangFromHtml doc = []) := by
  refine ⟨LangFromHtml_eq doc, ?_, ?_⟩
  · intro v
    rw [MatchString_RegexLangHtml]
    constructor
    · intro h
      rcases v with _ | ⟨a, _ | ⟨b, _ | ⟨c, sub⟩⟩⟩
      · simp [validLangTag] at h
      · simp [validLangTag] at h
      · simp only [validLangTag, Bool.and_eq_true] at h
        exact Or.inl ⟨a, b, rfl, h.1, h.2⟩
      · simp only [validLangTag, Bool.and_eq_true, beq_iff_eq, Bool.not_eq_true',
          List.isEmpty_eq_false, List.all_eq_true] at h
        obtain ⟨⟨⟨⟨ha, hb⟩, hc⟩, hne⟩, hall⟩ := h
        subst hc
        exact Or.inr ⟨a, b, sub, rfl, ha, hb, hne, hall⟩
    · rintro (⟨a, b, rfl, ha, hb⟩ | ⟨a, b, sub, rfl, ha, hb, hne, hall⟩)
      · simp [validLangTag, ha, hb]
      · simp only [validLangTag, Bool.and_eq_true, beq_iff_eq, Bool.not_eq_true',
          List.isEmpty_eq_false, List.all_eq_true]
        exact ⟨⟨⟨⟨ha, hb⟩, trivial⟩, hne⟩, hall⟩
  · intro hnone
    rw [LangFromHtml_eq]
    unfold declaredLanguage
    have hfind : ((langCandidates doc).filterMap (fun v => v.map TrimSpace)).find? validLangTag
        = none := by
      rw [List.find?_eq_none]
      intro y hy
      obtain ⟨o, ho, hoy⟩ := List.mem_filterMap.mp hy
      rcases o with _ | x
      · cases hoy
      · have hxy : TrimSpace x = y := by simpa using hoy
        rw [← hxy, ← MatchString_RegexLangHtml, hnone x ho]
        decide
    rw [hfind]

/-! ## Invariants of the result -/

/-- C11, amended. LanguageCode invariant: a non-empty language code returned by `Lang` has
length 2; when its source is not the markup it is lower-case and a key of the language-name
table; when its source is the markup it is the code `LangFromHtml` returns, two letters of the
declared value. -/
theorem C11_language_code (E : Env) (doc : Document) (charset : Str) (list : Bool)
    (hne : (Lang E doc charset list).Lang ≠ []) :
    (Lang E doc charset list).Lang.length = 2
      ∧ ((Lang E doc charset list).LangPos ≠ LangPosHtmlTag →
          lowerCase (Lang E doc charset list).Lang = true
            ∧ (Lang E doc charset list).Lang ∈ knownCodes)
      ∧ ((Lang E doc charset list).LangPos = LangPosHtmlTag →
          (Lang E doc charset list).Lang = LangFromHtml doc
            ∧ ∀ c ∈ (Lang E doc charset list).Lang, tagLetter c = true) := by
  rcases Lang_cases E doc charset list with ⟨v, hv, h⟩ | h | h | ⟨a, b, ha, hb, hh, h⟩ | h | h | h
    | ⟨l, h⟩ | h
  · obtain ⟨_, h2, h3, h4⟩ := charset_values _ hv
    rw [h]
    exact ⟨h2, fun _ => ⟨h3, h4⟩,
      fun hp => absurd (hp : LangPosCharset = LangPosHtmlTag)
        (by decide : LangPosCharset ≠ LangPosHtmlTag)⟩
  · rw [h]
    exact ⟨by decide, fun _ => by decide, fun hp => absurd hp (by decide)⟩
  · rw [h]
    exact ⟨by decide, fun _ => by decide, fun hp => absurd hp (by decide)⟩
  · rw [h]
    refine ⟨rfl, fun hp => absurd rfl hp, fun _ => ⟨hh.symm, ?_⟩⟩
    intro c hc
    rcases List.mem_cons.mp hc with rfl | hc
    · exact ha
    · rw [List.mem_singleton.mp hc]; exact hb
  · rw [h]
    exact ⟨by decide, fun _ => by decide, fun hp => absurd hp (by decide)⟩
  · rw [h]
    exact ⟨by decide, fun _ => by decide, fun hp => absurd hp (by decide)⟩
  · rw [h]
    exact ⟨by decide, fun _ => by decide, fun hp => absurd hp (by decide)⟩
  · obtain ⟨_, h2, h3, h4⟩ := linguaCode_values l
    rw [h]
    exact ⟨h2, fun _ => ⟨h3, h4⟩,
      fun hp => absurd (hp : LangPosLingua = LangPosHtmlTag)
        (by decide : LangPosLingua ≠ LangPosHtmlTag)⟩
  · rw [h] at hne
    exact absurd rfl hne

/-- Witness of C11, amended: the accented page under UTF-8 with a detector that answers
French. -/
theorem C11_language_code_witness :
    (Lang (exampleEnv answerFrench) frenchPage "UTF-8".toList false).Lang.length = 2
      ∧ ((Lang (exampleEnv answerFrench) frenchPage "UTF-8".toList false).LangPos
            ≠ LangPosHtmlTag →
          lowerCase (Lang (exampleEnv answerFrench) frenchPage "UTF-8".toList false).Lang = true
            ∧ (Lang (exampleEnv answerFrench) frenchPage "UTF-8".toList false).Lang
              ∈ knownCodes)
      ∧ ((Lang (exampleEnv answerFrench) frenchPage "UTF-8".toList false).LangPos
            = LangPosHtmlTag →
          (Lang (exampleEnv answerFrench) frenchPage "UTF-8".toList false).Lang
              = LangFromHtml frenchPage
            ∧ ∀ c ∈ (Lang (exampleEnv answerFrench) frenchPage "UTF-8".toList false).Lang,
                tagLetter c = true) :=
  C11_language_code (exampleEnv answerFrench) frenchPage "UTF-8".toList false (by
    have h : Lang (exampleEnv answerFrench) frenchPage "UTF-8".toList false
        = ⟨"fr".toList, LangPosLingua⟩ := by
      rw [Lang_eq, LangFromTitle_eq, LangFromUtf8Body_eq]
      decide
    rw [h]
    decide)

/-- Counterexample to C11 as stated: a page that declares `lang="FR"` yields the code "FR"
with source "html", which is not lower-case; a page that declares `lang="sv"` yields "sv",
which is not a key of the language-name table. -/
theorem C11_counterexample :
    (Lang (exampleEnv noAnswer) upperCasePage [] false = ⟨"FR".toList, "html".toList⟩
        ∧ lowerCase "FR".toList = false ∧ "FR".toList ∉ knownCodes)
      ∧ (Lang (exampleEnv noAnswer) swedishPage [] false = ⟨"sv".toList, "html".toList⟩
        ∧ "sv".toList ∉ knownCodes) := by
  have h1 : Lang (exampleEnv noAnswer) upperCasePage [] false
      = ⟨"FR".toList, "html".toList⟩ := by
    rw [Lang_eq, LangFromTitle_eq]
    decide
  have h2 : Lang (exampleEnv noAnswer) swedishPage [] false
      = ⟨"sv".toList, "html".toList⟩ := by
    rw [Lang_eq, LangFromTitle_eq]
    decide
  exact ⟨⟨h1, by decide, by decide⟩, h2, by decide⟩

/-- C12. Provenance invariant: the result of `Lang` has a non-empty source exactly when it
has a non-empty language code; a non-empty code comes with one of the five source tags, which
are distinct, and the empty result has the empty source. -/
theorem C12_provenance (E : Env) (doc : Document) (charset : Str) (list : Bool) :
    ((Lang E doc charset list).LangPos ≠ [] ↔ (Lang E doc charset list).Lang ≠ [])
      ∧ ((Lang E doc charset list).Lang ≠ [] → (Lang E doc charset list).LangPos ∈ sourceTags)
      ∧ ((Lang E doc charset list).Lang = [] → Lang E doc charset list = ⟨[], []⟩)
      ∧ sourceTags.Nodup ∧ sourceTags.length = 5 := by
  have hnd : sourceTags.Nodup ∧ sourceTags.length = 5 := by decide
  rcases Lang_cases E doc charset list with ⟨v, hv, h⟩ | h | h | ⟨a, b, ha, hb, hh, h⟩ | h | h | h
    | ⟨l, h⟩ | h
  · obtain ⟨h1, _⟩ := charset_values _ hv
    rw [h]
    exact ⟨⟨fun _ => h1, fun _ => (by decide : LangPosCharset ≠ [])⟩,
      fun _ => (by decide : LangPosCharset ∈ sourceTags), fun h0 => absurd h0 h1, hnd⟩
  · rw [h]
    exact ⟨by decide, fun _ => by decide, fun h0 => absurd h0 (by decide), hnd⟩
  · rw [h]
    exact ⟨by decide, fun _ => by decide, fun h0 => absurd h0 (by decide), hnd⟩
  · rw [h]
    exact ⟨⟨fun _ => List.cons_ne_nil _ _, fun _ => (by decide : LangPosHtmlTag ≠ [])⟩,
      fun _ => (by decide : LangPosHtmlTag ∈ sourceTags),
      fun h0 => absurd h0 (List.cons_ne_nil _ _), hnd⟩
  · rw [h]
    exact ⟨by decide, fun _ => by decide, fun h0 => absurd h0 (by decide), hnd⟩
  · rw [h]
    exact ⟨by decide, fun _ => by decide, fun h0 => absurd h0 (by decide), hnd⟩
  · rw [h]
    exact ⟨by decide, fun _ => by decide, fun h0 => absurd h0 (by decide), hnd⟩
  · obtain ⟨h1, _⟩ := linguaCode_values l
    rw [h]
    exact ⟨⟨fun _ => h1, fun _ => (by decide : LangPosLingua ≠ [])⟩,
      fun _ => (by decide : LangPosLingua ∈ sourceTags), fun h0 => absurd h0 h1, hnd⟩
  · rw [h]
    exact ⟨by decide, fun h0 => absurd rfl h0, fun _ => rfl, hnd⟩

/-! ## The Body Sample Extractor -/

/-- C13. Listing-mode sample: with `list = true`, `bodyTextForLang` returns the empty sample
when the page has fewer than 16 anchors; with at least 16 it returns the text of the first
min(count, 64) anchors, unless that text has at least 5 opening and at least 5 closing braces,
in which case it returns the empty sample. -/
theorem C13_listing_sample (doc : Document) :
    ((doc.Texts "a".toList).length < 16 → bodyTextForLang doc true = [])
      ∧ (16 ≤ (doc.Texts "a".toList).length →
          bodyTextForLang doc true =
            if 5 ≤ (((doc.Texts "a".toList).take
                  (min (doc.Texts "a".toList).length 64)).flatten).count '{'
                ∧ 5 ≤ (((doc.Texts "a".toList).take
                  (min (doc.Texts "a".toList).length 64)).flatten).count '}'
            then []
            else ((doc.Texts "a".toList).take (min (doc.Texts "a".toList).length 64)).flatten) := by
  constructor
  · intro h
    exact bodyTextForLang_few_anchors doc h
  · intro h
    unfold bodyTextForLang
    simp only [Id.run, pure, bind, Document.Size, Document.SliceText, Count]
    have h16 : (doc.Texts "a".toList).length ≥ 16 := h
    simp only [h16, ↓reduceIte, ge_iff_le]

set_option maxRecDepth 8000 in
/-- The listing-mode sample on the example pages: 10 anchors give nothing, 16 anchors of
template syntax are discarded, 16 anchors of text are kept. -/
theorem listing_sample_examples :
    bodyTextForLang sparseListing true = []
      ∧ bodyTextForLang templateListing true = []
      ∧ bodyTextForLang japaneseListing true = (List.replicate 16 "ニュース".toList).flatten := by
  decide

/-- C14. Content-mode sample: with `list = false`, `bodyTextForLang` returns the text of the
first min(count, 64) paragraphs when that text has at least 64 code points, and the text of
the whole body otherwise. -/
theorem C14_content_sample (doc : Document) :
    (64 ≤ (((doc.Texts "p".toList).take (min (doc.Texts "p".toList).length 64)).flatten).length →
        bodyTextForLang doc false
          = ((doc.Texts "p".toList).take (min (doc.Texts "p".toList).length 64)).flatten)
      ∧ ((((doc.Texts "p".toList).take (min (doc.Texts "p".toList).length 64)).flatten).length
            < 64 →
        bodyTextForLang doc false = (doc.Texts "body".toList).flatten) := by
  constructor
  · intro h
    unfold bodyTextForLang
    simp only [Id.run, pure, bind, Document.Size, Document.SliceText, Document.Text]
    have hn : ¬(((doc.Texts "p".toList).take (min (doc.Texts "p".toList).length 64)).flatten).length
        < 64 := by omega
    simp only [hn, ↓reduceIte, Bool.false_eq_true]
  · intro h
    unfold bodyTextForLang
    simp only [Id.run, pure, bind, Document.Size, Document.SliceText, Document.Text]
    simp only [h, ↓reduceIte, Bool.false_eq_true]

/-- The length is counted in code points: a paragraph of 30 Han characters is 90 bytes of
UTF-8, and still too short, so the body text is taken. -/
theorem content_sample_example :
    (String.mk (List.replicate 30 '中')).utf8ByteSize = 90
      ∧ bodyTextForLang shortHanPage false = "body text".toList := by
  decide

/-! ## The name tables -/

/-- C15. Round trip of the name maps: for every key `c` of `LangEnZhMap`, with name
`LangEnZhMap[c]`, the name is a key of `LangZhEnMap` and `LangZhEnMap[LangEnZhMap[c]] = c`. -/
theorem C15_round_trip (c name : Str) (h : LangEnZhMap.lookup c = some name) :
    LangZhEnMap.lookup name = some c
      ∧ mapHas LangZhEnMap (mapGet LangEnZhMap c) = true
      ∧ mapGet LangZhEnMap (mapGet LangEnZhMap c) = c := by
  have hall : ∀ p ∈ LangEnZhMap, LangZhEnMap.lookup p.2 = some p.1 := by decide
  have h1 : LangZhEnMap.lookup name = some c := hall (c, name) (lookup_mem h)
  refine ⟨h1, ?_, ?_⟩
  · simp [mapHas, mapGet, h, h1]
  · simp [mapGet, h, h1]

/-- Witness of C15: the code "zh". -/
theorem C15_round_trip_witness :
    LangZhEnMap.lookup "中文".toList = some "zh".toList
      ∧ mapHas LangZhEnMap (mapGet LangEnZhMap "zh".toList) = true
      ∧ mapGet LangZhEnMap (mapGet LangEnZhMap "zh".toList) = "zh".toList :=
  C15_round_trip "zh".toList "中文".toList (by decide)

/-! ## More of the body analysis -/

/-- C16. Chinese/Japanese split: on a normalized sample whose Han ratio is at least 0.38,
`LangFromUtf8Body` returns ("ja", "body") when the number of Hiragana/Katakana characters
divided by the number of Han characters is above 0.10, and ("zh", "body") otherwise; a ratio
of exactly 0.10 gives "zh". -/
theorem C16_zh_ja_split (E : Env) (doc : Document) (list : Bool)
    (hhan : (0.38 : ℚ) ≤ hanRatio E (bodySample E doc list)) :
    LangFromUtf8Body E doc list =
        (if (0.10 : ℚ) < ratio (kanaCount E (bodySample E doc list))
            (hanCount E (bodySample E doc list))
          then ("ja".toList, "body".toList) else ("zh".toList, "body".toList))
      ∧ (ratio (kanaCount E (bodySample E doc list)) (hanCount E (bodySample E doc list)) = 0.10 →
          LangFromUtf8Body E doc list = ("zh".toList, "body".toList)) := by
  have hd := han_dominant hhan
  have hh : 0 < hanCount E (bodySample E doc list) := by omega
  have e10 : (0.10 : ℚ) = 0.1 := by norm_num
  have hiff := lt_ratio_01_pos (a := kanaCount E (bodySample E doc list)) hh
  have key : LangFromUtf8Body E doc list =
      (if (0.10 : ℚ) < ratio (kanaCount E (bodySample E doc list))
          (hanCount E (bodySample E doc list))
        then ("ja".toList, "body".toList) else ("zh".toList, "body".toList)) := by
    rw [LangFromUtf8Body_eq, if_pos hd, e10]
    by_cases hk : hanCount E (bodySample E doc list) < 10 * kanaCount E (bodySample E doc list)
    · rw [if_pos hk, if_pos (hiff.mpr hk)]; rfl
    · rw [if_neg hk, if_neg (fun h => hk (hiff.mp h))]; rfl
  refine ⟨key, fun heq => ?_⟩
  rw [key, heq, if_neg (lt_irrefl _)]

/-- Witness of C16: 10 Han characters and 1 Hiragana character. -/
theorem C16_zh_ja_split_witness :
    LangFromUtf8Body (exampleEnv noAnswer) kanaBoundaryPage false =
        (if (0.10 : ℚ) < ratio (kanaCount (exampleEnv noAnswer)
              (bodySample (exampleEnv noAnswer) kanaBoundaryPage false))
            (hanCount (exampleEnv noAnswer)
              (bodySample (exampleEnv noAnswer) kanaBoundaryPage false))
          then ("ja".toList, "body".toList) else ("zh".toList, "body".toList))
      ∧ (ratio (kanaCount (exampleEnv noAnswer)
              (bodySample (exampleEnv noAnswer) kanaBoundaryPage false))
            (hanCount (exampleEnv noAnswer)
              (bodySample (exampleEnv noAnswer) kanaBoundaryPage false)) = 0.10 →
          LangFromUtf8Body (exampleEnv noAnswer) kanaBoundaryPage false
            = ("zh".toList, "body".toList)) :=
  C16_zh_ja_split (exampleEnv noAnswer) kanaBoundaryPage false
    ((le_ratio_038 (by decide)).mpr (by decide))

/-- The boundary itself: 1 kana for 10 Han characters is a ratio of exactly 0.10, and the
sample is classified Chinese. -/
theorem kana_boundary_example :
    ratio (kanaCount (exampleEnv noAnswer)
          (bodySample (exampleEnv noAnswer) kanaBoundaryPage false))
        (hanCount (exampleEnv noAnswer)
          (bodySample (exampleEnv noAnswer) kanaBoundaryPage false)) = 0.10
      ∧ LangFromUtf8Body (exampleEnv noAnswer) kanaBoundaryPage false
        = ("zh".toList, "body".toList) := by
  have h1 : kanaCount (exampleEnv noAnswer)
      (bodySample (exampleEnv noAnswer) kanaBoundaryPage false) = 1 := by decide
  have h2 : hanCount (exampleEnv noAnswer)
      (bodySample (exampleEnv noAnswer) kanaBoundaryPage false) = 10 := by decide
  constructor
  · rw [h1, h2]
    norm_num [ratio]
  · rw [LangFromUtf8Body_eq]
    decide

/-- C17. Non-Latin handoff: on a normalized sample with a Han ratio below 0.38 and a ratio of
letters `a-z`, `A-Z` of at most 0.38, `LangFromUtf8Body` returns the answer of the detector
for {Arabic, Russian, Hindi, Korean} with source "lingua" when the detector is confident and
("", "") when it is not; and `linguaMap` gives every language of either candidate group a
code of two characters, so a confident answer never has an empty language code. -/
theorem C17_non_latin (E : Env) (doc : Document) (list : Bool)
    (hhan : hanRatio E (bodySample E doc list) < 0.38)
    (heng : englishRatio (bodySample E doc list) ≤ 0.38) :
    (∀ l : Language, E.DetectLanguageOf linguaLanguages (bodySample E doc list) = some l →
        LangFromUtf8Body E doc list = (mapGet linguaMap (ToLower l.String), "lingua".toList))
      ∧ (E.DetectLanguageOf linguaLanguages (bodySample E doc list) = none →
        LangFromUtf8Body E doc list = ([], []))
      ∧ (∀ l ∈ linguaLanguages ++ linguaLatinLanguages,
          mapGet linguaMap (ToLower l.String) ≠ []
            ∧ (mapGet linguaMap (ToLower l.String)).length = 2)
      ∧ linguaLanguages
          = [Language.Arabic, Language.Russian, Language.Hindi, Language.Korean] := by
  have h2 : ¬(38 * (bodySample E doc list).length
      < 100 * englishCount (bodySample E doc list)) := by
    intro h
    have := (lt_ratio_038 (englishCount_le (bodySample E doc list))).mpr h
    unfold englishRatio at heng
    linarith
  have e := LangFromUtf8Body_eq E doc list
  rw [if_neg (not_han_dominant hhan), if_neg h2] at e
  refine ⟨?_, ?_, by decide, rfl⟩
  · intro l hl
    rw [e, hl]
    rfl
  · intro hl
    rw [e, hl]

/-- Witness of C17: a page of Hangul text with a detector that answers Korean. -/
theorem C17_non_latin_witness :
    LangFromUtf8Body (exampleEnv answerKorean) koreanPage false
      = ("ko".toList, "lingua".toList) :=
  (C17_non_latin (exampleEnv answerKorean) koreanPage false
    ((ratio_lt_038 (by decide)).mpr (by decide))
    (le_of_not_lt (fun h => absurd ((lt_ratio_038 (englishCount_le _)).mp h) (by decide)))).1
    Language.Korean rfl

/-! ## The Text Normalizer -/

/-- C18. Normalizer postcondition: for every raw sample the normalized sample has at most
2048 (`BodyChunkSize`) code points, contains no character of the punctuation or symbol
categories, and neither begins nor ends with white space. -/
theorem C18_normalizer (E : Env) (raw : Str) :
    (normalizeSample E raw).length ≤ 2048
      ∧ BodyChunkSize = 2048
      ∧ (∀ c ∈ normalizeSample E raw, E.P c = false ∧ E.S c = false)
      ∧ (∀ c, (normalizeSample E raw).head? = some c → IsSpace c = false)
      ∧ (∀ c, (normalizeSample E raw).getLast? = some c → IsSpace c = false) := by
  refine ⟨normalizeSample_length E raw, rfl, ?_, ?_, ?_⟩
  · intro c hc
    have h := normalizeSample_sign E raw c hc
    simpa [signClass] using h
  · intro c hc
    exact TrimSpace_head _ c hc
  · intro c hc
    exact TrimSpace_last _ c hc

/-- The normalizer on an example: line breaks, tabs, a double space and signs go, and the
ends are trimmed. -/
theorem normalizer_example :
    normalizeSample (exampleEnv noAnswer) " Hello,\n\tworld!  (again) ".toList
      = "Helloworldagain".toList := by
  decide

/-! ## Quotients and the kana class -/

/-- C19. No division by zero: `LangFromUtf8Body` and `LangFromTitle` with each of their
quotients (hanCount/N, jaCount/hanCount, englishCount/N; jaCount/N) checked for a zero divisor
never fail and return what the unchecked functions return, so every quotient is evaluated
with a divisor of at least 1; and on an empty sample the result of `LangFromUtf8Body` is not
a body-ratio result. -/
theorem C19_no_division_by_zero (E : Env) (doc : Document) (list : Bool) :
    LangFromUtf8BodyChecked E doc list = some (LangFromUtf8Body E doc list)
      ∧ LangFromTitleChecked E doc list = some (LangFromTitle E doc list)
      ∧ (∀ a b : ℕ, checkedDiv a b = none ↔ b = 0)
      ∧ (bodySample E doc list = [] → (LangFromUtf8Body E doc list).2 ≠ "body".toList) := by
  refine ⟨LangFromUtf8BodyChecked_eq E doc list, LangFromTitleChecked_eq E doc list, ?_, ?_⟩
  · intro a b
    unfold checkedDiv
    by_cases hb : b = 0
    · simp [hb]
    · simp [hb]
  · intro hs
    have e := LangFromUtf8Body_eq E doc list
    rw [hs] at e
    have h1 : ¬(0 < ([] : Str).length ∧ 38 * ([] : Str).length ≤ 100 * hanCount E []) := by
      simp
    have h2 : ¬(38 * ([] : Str).length < 100 * englishCount []) := by
      simp [englishCount]
    rw [if_neg h1, if_neg h2] at e
    rw [e]
    cases E.DetectLanguageOf linguaLanguages [] with
    | none => exact (by decide : ([] : Str) ≠ "body".toList)
    | some l => exact (by decide : LangPosLingua ≠ "body".toList)

/-- The empty sample on an example: a listing page with 10 anchors has an empty sample, and
the checked body analysis returns the empty result. -/
theorem empty_sample_example :
    bodySample (exampleEnv noAnswer) sparseListing true = []
      ∧ LangFromUtf8BodyChecked (exampleEnv noAnswer) sparseListing true = some ([], []) := by
  have hs : bodySample (exampleEnv noAnswer) sparseListing true = [] := by decide
  refine ⟨hs, ?_⟩
  rw [LangFromUtf8BodyChecked_eq, LangFromUtf8Body_nil _ _ _ hs rfl]

/-- C20. Kana count is exact: the class `[\p{Hiragana}|\p{Katakana}]` matches the bar, but a
normalized sample has no bar, the bar being a symbol, and on it the number of matches of the
class is the number of characters in the Hiragana or Katakana script. -/
theorem C20_kana_count (E : Env) (raw : Str) :
    jaClass E '|' = true
      ∧ '|' ∉ normalizeSample E raw
      ∧ (FindAllString (jaClass E) (normalizeSample E raw)).length
          = kanaCount E (normalizeSample E raw) := by
  refine ⟨by simp [jaClass], ?_, ?_⟩
  · intro hmem
    have h := normalizeSample_sign E raw '|' hmem
    simp [signClass, E.bar_symbol] at h
  · unfold FindAllString kanaCount
    rw [jaClass_filter]

end Spider
